import Mathlib

/-!
Verification development for the `ts-qrcode` QR encoder (`src/qr.ts`).

The TypeScript source is shallowly embedded below.  JavaScript arrays are
modelled by `JsArr` (an explicit length plus a partial index map, where
`none` plays the role of a hole / `undefined` entry); JavaScript numbers
that matter to the claims are natural numbers (all arithmetic in the
encoder is on nonnegative 32-bit integers, and every bitwise operation is
translated with explicit `&&& / ||| / ^^^ / >>> / <<<` on `Nat`).  Where
the source relies on JavaScript coercions (`undefined` compared with or
xored into numbers, an array coerced by `ToNumber`, `ToInt32(NaN) = 0`)
the coercion is modelled explicitly and noted in a comment at the
definition that uses it.
-/

set_option maxRecDepth 100000

namespace QrCode

/-- A JavaScript value as it can occur inside the code-word buffers of
`calculateEcc` / `augumentEccs`: a number, the array of `k` zeros that
`modulus.push(new Array(genpoly.length).fill(0))` pushes as a single
element, or `undefined` (a hole / out-of-range read). -/
inductive JsVal where
  | num (n : Nat)
  | arrZ (k : Nat)
  | undefV
deriving DecidableEq

/-- `ToInt32` of a `JsVal` as used by the bitwise operators of the source:
a number is itself; `undefined` coerces through `NaN` to `0`; an array of
zeros coerces to `"0"` (giving `0`) or to `"0,0,..."` (giving `NaN`, then
`0`) - in both cases `0`. -/
def JsVal.toNum : JsVal → Nat
  | .num n => n
  | .arrZ _ => 0
  | .undefV => 0

/-- JavaScript array model: a length together with the (partial) contents.
`get i = none` represents a hole or an out-of-range read (`undefined`). -/
structure JsArr (α : Type) where
  len : Nat
  get : Nat → Option α

/-- The empty array `[]`. -/
def JsArr.emptyA {α : Type} : JsArr α := ⟨0, fun _ => none⟩

/-- `a[i] = v`: extends the length if `i` is past the end (later indices
stay holes), exactly as a JavaScript index assignment does. -/
def JsArr.setA {α : Type} (a : JsArr α) (i : Nat) (v : α) : JsArr α :=
  ⟨max a.len (i + 1), fun j => if j = i then some v else a.get j⟩

/-- `a.push(v)`. -/
def JsArr.pushA {α : Type} (a : JsArr α) (v : α) : JsArr α := a.setA a.len v

/-- The matrix type of the source: an array of array-rows of numbers
(`this.matrix` and `this.reserved`). -/
abbrev Mat := JsArr (JsArr Nat)

/-- `m[r][c]` as a read; `none` is an unwritten (undefined) cell.
(If row `r` itself were missing JavaScript would throw; in every use
below the rows `0..n-1` exist, and we read the missing row as empty.) -/
def getCell (m : Mat) (r c : Nat) : Option Nat :=
  ((m.get r).getD JsArr.emptyA).get c

/-- `m[r][c] = v`.  All writes in the source target an existing row. -/
def setCell (m : Mat) (r c v : Nat) : Mat :=
  m.setA r (((m.get r).getD JsArr.emptyA).setA c v)

/-- JavaScript truthiness of a matrix / reserved cell: `undefined` and `0`
are falsy, any other number is truthy. -/
def truthyCell (o : Option Nat) : Bool := o.getD 0 != 0

/-!  ## GF(2^8) tables (`QrCode.GF256`) -/

/-- The `MAP` antilog table: `MAP[i] = α^i`, built by
`v = (v * 2) ^ (v >= 128 ? 0x11d : 0)` starting from `v = 1`. -/
def gfMapList : List Nat :=
  ((List.range 255).foldl
    (fun (st : List Nat × Nat) _ =>
      let v := st.2
      (st.1 ++ [v], (v * 2) ^^^ (if v ≥ 128 then 0x11d else 0)))
    ([], 1)).1

/-- `GF256.MAP[i]` (indices are in range in every use; the source would
read `undefined` out of range). -/
def gfMap (i : Nat) : Nat := gfMapList.getD i 0

/-- `GF256.INVMAP[x]`: the log table, with `INVMAP[0] = -1`.  A value
never written (only possible for `x ≥ 256`, where the source reads
`undefined`, which fails the `quotient >= 0` test just as `-1` does) is
modelled as `-1`. -/
def gfInv (x : Nat) : Int :=
  if x = 0 then -1
  else match gfMapList.findIdx? (fun v => v = x) with
    | some i => (i : Int)
    | none => -1

/-- One step of the `GENPOLY` construction: given `GENPOLY[i]` (`prevpoly`)
produce `GENPOLY[i+1]`.  `prevpoly[j-1] || 0` for `j = 0` reads
`undefined || 0 = 0`; coefficients are stored as `α`-exponents. -/
def genpolyStep (i : Nat) (prevpoly : List Int) : List Int :=
  (List.range (i + 1)).map fun j =>
    let a := if j < i then gfMap (prevpoly.getD j 0).toNat else 0
    let b := gfMap ((i + (if j = 0 then 0 else (prevpoly.getD (j - 1) 0).toNat)) % 255)
    gfInv (a ^^^ b)

/-- `GF256.GENPOLY`: generator polynomials of degree 0..30, coefficients
as `α`-exponents with the leading 1 omitted. -/
def GENPOLY : List (List Int) :=
  (List.range 30).foldl
    (fun acc i => acc ++ [genpolyStep i (acc.getD i [])])
    [[]]

/-!  ## Per-version tables (`QrCode.VERSIONS`)

Entry `v` is `(eccPerBlock by level, blocks by level, alignment positions)`;
entry `0` is `null` in the source and never read ( modelled as empty). -/

def VERSIONS : List (List Nat × List Nat × List Nat) :=
  [ ([], [], []),
    ([10, 7, 17, 13], [1, 1, 1, 1], []),
    ([16, 10, 28, 22], [1, 1, 1, 1], [4, 16]),
    ([26, 15, 22, 18], [1, 1, 2, 2], [4, 20]),
    ([18, 20, 16, 26], [2, 1, 4, 2], [4, 24]),
    ([24, 26, 22, 18], [2, 1, 4, 4], [4, 28]),
    ([16, 18, 28, 24], [4, 2, 4, 4], [4, 32]),
    ([18, 20, 26, 18], [4, 2, 5, 6], [4, 20, 36]),
    ([22, 24, 26, 22], [4, 2, 6, 6], [4, 22, 40]),
    ([22, 30, 24, 20], [5, 2, 8, 8], [4, 24, 44]),
    ([26, 18, 28, 24], [5, 4, 8, 8], [4, 26, 48]),
    ([30, 20, 24, 28], [5, 4, 11, 8], [4, 28, 52]),
    ([22, 24, 28, 26], [8, 4, 11, 10], [4, 30, 56]),
    ([22, 26, 22, 24], [9, 4, 16, 12], [4, 32, 60]),
    ([24, 30, 24, 20], [9, 4, 16, 16], [4, 24, 44, 64]),
    ([24, 22, 24, 30], [10, 6, 18, 12], [4, 24, 46, 68]),
    ([28, 24, 30, 24], [10, 6, 16, 17], [4, 24, 48, 72]),
    ([28, 28, 28, 28], [11, 6, 19, 16], [4, 28, 52, 76]),
    ([26, 30, 28, 28], [13, 6, 21, 18], [4, 28, 54, 80]),
    ([26, 28, 26, 26], [14, 7, 25, 21], [4, 28, 56, 84]),
    ([26, 28, 28, 30], [16, 8, 25, 20], [4, 32, 60, 88]),
    ([26, 28, 30, 28], [17, 8, 25, 23], [4, 26, 48, 70, 92]),
    ([28, 28, 24, 30], [17, 9, 34, 23], [4, 24, 48, 72, 96]),
    ([28, 30, 30, 30], [18, 9, 30, 25], [4, 28, 52, 76, 100]),
    ([28, 30, 30, 30], [20, 10, 32, 27], [4, 26, 52, 78, 104]),
    ([28, 26, 30, 30], [21, 12, 35, 29], [4, 30, 56, 82, 108]),
    ([28, 28, 30, 28], [23, 12, 37, 34], [4, 28, 56, 84, 112]),
    ([28, 30, 30, 30], [25, 12, 40, 34], [4, 32, 60, 88, 116]),
    ([28, 30, 30, 30], [26, 13, 42, 35], [4, 24, 48, 72, 96, 120]),
    ([28, 30, 30, 30], [28, 14, 45, 38], [4, 28, 52, 76, 100, 124]),
    ([28, 30, 30, 30], [29, 15, 48, 40], [4, 24, 50, 76, 102, 128]),
    ([28, 30, 30, 30], [31, 16, 51, 43], [4, 28, 54, 80, 106, 132]),
    ([28, 30, 30, 30], [33, 17, 54, 45], [4, 32, 58, 84, 110, 136]),
    ([28, 30, 30, 30], [35, 18, 57, 48], [4, 28, 56, 84, 112, 140]),
    ([28, 30, 30, 30], [37, 19, 60, 51], [4, 32, 60, 88, 116, 144]),
    ([28, 30, 30, 30], [38, 19, 63, 53], [4, 28, 52, 76, 100, 124, 148]),
    ([28, 30, 30, 30], [40, 20, 66, 56], [4, 22, 48, 74, 100, 126, 152]),
    ([28, 30, 30, 30], [43, 21, 70, 59], [4, 26, 52, 78, 104, 130, 156]),
    ([28, 30, 30, 30], [45, 22, 74, 62], [4, 30, 56, 82, 108, 134, 160]),
    ([28, 30, 30, 30], [47, 24, 77, 65], [4, 24, 52, 80, 108, 136, 164]),
    ([28, 30, 30, 30], [49, 25, 81, 68], [4, 28, 56, 84, 112, 140, 168]) ]

/-- `VERSIONS[ver][0][ecclevel]`: ECC code words per block. -/
def eccPerBlock (ver e : Nat) : Nat :=
  (VERSIONS.getD ver ([], [], [])).1.getD e 0

/-- `VERSIONS[ver][1][ecclevel]`: number of code blocks. -/
def nBlocks (ver e : Nat) : Nat :=
  (VERSIONS.getD ver ([], [], [])).2.1.getD e 0

/-- `VERSIONS[ver][2]`: alignment pattern positions. -/
def alignsOf (ver : Nat) : List Nat :=
  (VERSIONS.getD ver ([], [], [])).2.2

/-!  ## BCH augmentation and capacity computations -/

/-- `QrCode.augumentbch(poly, p, genpoly, q)`. -/
def augumentbch (poly p genpoly q : Nat) : Nat :=
  let m := (List.range p).reverse.foldl
    (fun m i => if (m >>> (q + i)) &&& 1 = 1 then m ^^^ (genpoly <<< i) else m)
    (poly <<< q)
  (poly <<< q) ||| m

/-- `getSizeByVer`: symbol size `4 * ver + 17`. -/
def getSizeByVer (ver : Nat) : Nat := 4 * ver + 17

/-- `needsVerInfo`: `ver > 6`. -/
def needsVerInfo (ver : Nat) : Bool := ver > 6

/-- `nFullBits`: modules available for code words. -/
def nFullBits (ver : Nat) : Nat :=
  let nbits := 16 * ver * ver + 128 * ver + 64
  let nbits := if needsVerInfo ver then nbits - 36 else nbits
  let a := (alignsOf ver).length
  if a ≠ 0 then nbits - (25 * a * a - 10 * a - 55) else nbits

/-- `nDataBits`: `(nFullBits & ~7) - 8 * V[0][e] * V[1][e]`.
For a nonnegative 32-bit integer `x & ~7 = x - x % 8`. -/
def nDataBits (ver e : Nat) : Nat :=
  (nFullBits ver - nFullBits ver % 8) - 8 * eccPerBlock ver e * nBlocks ver e

/-- `nDataLenBits`: width of the length indicator per mode.  The source
looks the mode up in an object literal; an unsupported mode reads
`undefined`, under which the subsequent `pack` is a no-op exactly as it
is for width `0`, so the default case is `0`. -/
def nDataLenBits (ver mode : Nat) : Nat :=
  if mode = 1 then (if ver < 10 then 10 else if ver < 27 then 12 else 14)
  else if mode = 2 then (if ver < 10 then 9 else if ver < 27 then 11 else 13)
  else if mode = 4 then (if ver < 10 then 8 else 16)
  else if mode = 8 then (if ver < 10 then 8 else if ver < 27 then 10 else 12)
  else 0

/-- `getMaxDataLen`: maximum payload length for the configuration.
(An unsupported mode reads `undefined` in the source; that value is only
compared with `<=`, which is then false — callers guard it, see `fits`.) -/
def getMaxDataLen (ver e mode : Nat) : Nat :=
  let nbits := nDataBits ver e - 4 - nDataLenBits ver mode
  if mode = 1 then
    nbits / 10 * 3 + (if nbits % 10 < 4 then 0 else if nbits % 10 < 7 then 1 else 2)
  else if mode = 2 then
    nbits / 11 * 2 + (if nbits % 11 < 6 then 0 else 1)
  else if mode = 4 then nbits / 8
  else if mode = 8 then nbits / 13
  else 0

/-!  ## The bit packer of `encode` -/

/-- State of the closure in `encode`: the byte buffer, the partial byte
`bits` and the free bit count `remaining` in it. -/
structure PackSt where
  buf : List Nat
  bits : Nat
  remaining : Nat
deriving DecidableEq

/-- The `while (n >= 8) buf.push((x >> (n -= 8)) & 255)` loop of `pack`,
returning the list of pushed bytes.  The fuel argument (first) only needs
to be at least `n / 8`; `packWhile` below supplies `n`. -/
def packWhileAux : Nat → Nat → Nat → List Nat
  | 0, _, _ => []
  | fuel + 1, x, n =>
    if n ≥ 8 then ((x >>> (n - 8)) &&& 255) :: packWhileAux fuel x (n - 8) else []

/-- The byte-pushing loop of `pack`, applied to `x` with `n` bits left. -/
def packWhile (x n : Nat) : List Nat := packWhileAux n x n

/-- `pack(x, n)`: append the low `n` bits of `x` MSB-first.  Faithful to
the source: the first pushed byte is `bits | (x >> (n - remaining))`
without a 255-mask, and `pack` with `n = 0` is a no-op. -/
def pack (st : PackSt) (x n : Nat) : PackSt :=
  if st.remaining ≤ n then
    let n1 := n - st.remaining
    let buf := st.buf ++ [st.bits ||| (x >>> n1)] ++ packWhile x n1
    let n2 := n1 % 8
    if n2 = 0 then ⟨buf, 0, 8⟩
    else ⟨buf, (x &&& ((1 <<< n2) - 1)) <<< (8 - n2), 8 - n2⟩
  else if n = 0 then st
  else ⟨st.buf, st.bits ||| ((x &&& ((1 <<< n) - 1)) <<< (st.remaining - n)), st.remaining - n⟩

/-- `ToInt32(ToNumber(s))` for a single JavaScript character `s` as used
by `pack(this.data[i], 8)` in the OCTET packer: an ASCII digit converts
to its value, everything else (including letters) converts to `NaN` and
then to `0`; whitespace converts to `0` as well. -/
def jsCharNum (c : Char) : Nat :=
  if '0' ≤ c ∧ c ≤ '9' then c.toNat - 48 else 0

/-- `parseInt(s, 10)` for the digit groups of the NUMERIC packer: the
value of the leading digit run; an empty or non-digit string gives `NaN`,
which the bitwise operators of `pack` coerce to `0`.  (The real
`parseInt` additionally skips leading whitespace and accepts a sign,
e.g. `parseInt(" 1") = 1` and `parseInt("-1") = -1`; such prefixes can
only occur in mode-mismatched payloads that the broken validator lets
through, and this model reads those groups as the `NaN` case instead.) -/
def jsParseInt (cs : List Char) : Nat :=
  let ds := cs.takeWhile fun c => '0' ≤ c ∧ c ≤ '9'
  ds.foldl (fun acc c => acc * 10 + (c.toNat - 48)) 0

/-- `ALPHANUMERIC_MAP[c]`: `none` models the `undefined` read for a
character outside the 45-symbol table. -/
def alphanumericMap (c : Char) : Option Nat :=
  "0123456789ABCDEFGHIJKLMNOPQRSTUVWXYZ $%*+-./:".data.findIdx? (fun d => d = c)

/-- Splits the payload into the full 3-digit groups of the NUMERIC packer
(`for (i = 2; i < length; i += 3)`). -/
def chunk3 : List Char → List (List Char)
  | a :: b :: c :: t => [a, b, c] :: chunk3 t
  | _ => []

/-- Splits the payload into the character pairs of the ALPHANUMERIC packer
(`for (i = 1; i < length; i += 2)`). -/
def chunk2 : List Char → List (Char × Char)
  | a :: b :: t => (a, b) :: chunk2 t
  | _ => []

/-- The NUMERIC payload packer of `encode`.  The final
`pack(parseInt(this.data.substring(i - 2)), [0,4,7][length % 3])` packs
the leftover digits (an empty substring parses to `NaN`, coerced to `0`,
in a `0`-bit no-op pack). -/
def packNumeric (data : List Char) (st : PackSt) : PackSt :=
  let st := (chunk3 data).foldl (fun st g => pack st (jsParseInt g) 10) st
  pack st (jsParseInt (data.drop (data.length / 3 * 3)))
    ([0, 4, 7].getD (data.length % 3) 0)

/-- The ALPHANUMERIC payload packer of `encode`.  A character missing from
`ALPHANUMERIC_MAP` reads `undefined`; the arithmetic then produces `NaN`,
which the bitwise operators inside `pack` coerce to `0`. -/
def packAlnum (data : List Char) (st : PackSt) : PackSt :=
  let pairVal : Char × Char → Nat := fun p =>
    match alphanumericMap p.1, alphanumericMap p.2 with
    | some a, some b => a * 45 + b
    | _, _ => 0
  let st := (chunk2 data).foldl (fun st p => pack st (pairVal p) 11) st
  if data.length % 2 = 1 then
    pack st ((match data.getLast? with
      | some c => (alphanumericMap c).getD 0
      | none => 0)) 6
  else st

/-- The OCTET payload packer of `encode`.  Crucially, `this.data` is
still the ORIGINAL string here (the UTF-8 conversion computed in
`validateData` is discarded, see `validateData` below), so
`pack(this.data[i], 8)` packs `ToInt32(ToNumber(character))`. -/
def packOctet (data : List Char) (st : PackSt) : PackSt :=
  data.foldl (fun st c => pack st (jsCharNum c) 8) st

/-- The `while (buf.length + 1 < maxbuflen) buf.push(0xec, 0x11)` padding
loop plus the final odd `0xec`.  Fuel-driven (first argument); fuel
`maxbuflen` always suffices since each round adds two bytes. -/
def padBufAux : Nat → List Nat → Nat → List Nat
  | 0, buf, _ => buf
  | fuel + 1, buf, maxbuflen =>
    if buf.length + 1 < maxbuflen then padBufAux fuel (buf ++ [0xec, 0x11]) maxbuflen
    else if buf.length < maxbuflen then buf ++ [0xec]
    else buf

/-- The padding phase of `encode`. -/
def padBuf (buf : List Nat) (maxbuflen : Nat) : List Nat :=
  padBufAux maxbuflen buf maxbuflen

/-- `encode(maxbuflen)`: mode indicator, length indicator, payload,
terminator, byte alignment, padding.  `this.data.length` for a string is
its length (code points here; identical for the BMP payloads of every
claim).  For a mode outside numeric / alphanumeric / octet the source
would call `undefined()` and throw; that case (excluded by hypothesis in
every theorem) leaves the payload empty. -/
def encode (ver mode : Nat) (data : List Char) (maxbuflen : Nat) : List Nat :=
  let st : PackSt := ⟨[], 0, 8⟩
  let st := pack st mode 4
  let st := pack st data.length (nDataLenBits ver mode)
  let st :=
    if mode = 1 then packNumeric data st
    else if mode = 2 then packAlnum data st
    else if mode = 4 then packOctet data st
    else st
  let st := pack st 0 4
  let buf := if st.remaining < 8 then st.buf ++ [st.bits] else st.buf
  padBuf buf maxbuflen

/-!  ## Reed-Solomon ECC (`calculateEcc`, `augumentEccs`) -/

/-- Write `l[i] = v` on a `JsVal` buffer, extending with holes
(`undefined`) past the end exactly as a JavaScript index assignment. -/
def jsWrite (l : List JsVal) (i : Nat) (v : JsVal) : List JsVal :=
  if i < l.length then l.set i v
  else l ++ List.replicate (i - l.length) .undefV ++ [v]

/-- Read `l[i]` (out of range is `undefined`). -/
def jsRead (l : List JsVal) (i : Nat) : JsVal := l.getD i .undefV

/-- `QrCode.calculateEcc(poly, genpoly)`.  Faithful to the source,
including the port bug `modulus.push(new Array(genpoly.length).fill(0))`,
which pushes the zero-array as ONE element instead of appending
`genpoly.length` zero bytes.  `INVMAP[...] >= 0` selects nonzero leading
bytes; `modulus[i + j] ^= MAP[(quotient + genpoly[j]) % 255]` coerces the
pushed array and any `undefined` hole to `0` before the xor. -/
def calculateEcc (poly : List Nat) (genpoly : List Int) : List JsVal :=
  let init : List JsVal := poly.map .num ++ [.arrZ genpoly.length]
  let final := (List.range poly.length).foldl
    (fun md i =>
      let quotient := gfInv (jsRead md i).toNum
      if quotient ≥ 0 then
        (List.range genpoly.length).foldl
          (fun md j =>
            jsWrite md (i + 1 + j)
              (.num ((jsRead md (i + 1 + j)).toNum ^^^
                gfMap ((quotient + genpoly.getD j 0).toNat % 255))))
          md
      else md)
    init
  final.drop poly.length

/-- The `subsizes` block-boundary list of `augumentEccs`. -/
def subsizesOf (len nblocks : Nat) : List Nat :=
  let subsize := len / nblocks
  let pivot := nblocks - len % nblocks
  let st := (List.range nblocks).foldl
    (fun (st : List Nat × Nat) i =>
      (st.1 ++ [st.2], st.2 + if i < pivot then subsize else subsize + 1))
    ([], 0)
  st.1 ++ [st.2]

/-- `poly[i]` as the `JsVal` that `result.push(...)` stores (out of range
pushes `undefined`). -/
def jsIdxNat (l : List Nat) (i : Nat) : JsVal :=
  match l.get? i with
  | some v => .num v
  | none => .undefV

/-- `QrCode.augumentEccs(poly, nblocks, genpoly)`: per-block ECC plus the
standard interleaving.  `eccs[j][i]` can read past the (possibly
truncated, see `calculateEcc`) ECC block, pushing `undefined`. -/
def augumentEccs (poly : List Nat) (nblocks : Nat) (genpoly : List Int) : List JsVal :=
  let subsizes := subsizesOf poly.length nblocks
  let pivot := nblocks - poly.length % nblocks
  let eccs := (List.range nblocks).map fun i =>
    calculateEcc
      ((poly.drop (subsizes.getD i 0)).take (subsizes.getD (i + 1) 0 - subsizes.getD i 0))
      genpoly
  let nitemsperblock := poly.length / nblocks
  let part1 := (List.range nitemsperblock).foldl
    (fun acc i => acc ++ (List.range nblocks).map fun j =>
      jsIdxNat poly (subsizes.getD j 0 + i)) []
  let part2 := (List.range' pivot (nblocks - pivot)).map fun j =>
    jsIdxNat poly (subsizes.getD (j + 1) 0 - 1)
  let part3 := (List.range genpoly.length).foldl
    (fun acc i => acc ++ (List.range nblocks).map fun j =>
      ((eccs.getD j []).getD i .undefV)) []
  part1 ++ part2 ++ part3

/-!  ## Constructor (configuration resolution and validation) -/

/-- The recognised option keys of the constructor.  `none` models an
absent key; `version` and `mask` are integers as in JavaScript; the two
string-valued tags are character lists (as the payload is). -/
structure Options where
  ecclevel : Option (List Char)
  version : Option Int
  mode : Option (List Char)
  mask : Option Int

/-- `String.prototype.toUpperCase` on the ASCII tags used here. -/
def jsToUpper (s : List Char) : List Char := s.map Char.toUpper

/-- `String.prototype.toLowerCase` on the ASCII tags used here. -/
def jsToLower (s : List Char) : List Char := s.map Char.toLower

/-- `ECCLEVELS[tag]` (an unknown tag reads `undefined`). -/
def eccLevelsLookup (s : List Char) : Option Nat :=
  if s = ['L'] then some 1 else if s = ['M'] then some 0
  else if s = ['Q'] then some 3 else if s = ['H'] then some 2 else none

/-- `MODES[tag]` (an unknown tag reads `undefined`). -/
def modesLookup (s : List Char) : Option Nat :=
  if s = "numeric".data then some 1 else if s = "alphanumeric".data then some 2
  else if s = "octet".data then some 4 else none

/-- `REGEXP.NUMERIC` (`^\d*$`). -/
def numericRegex (data : List Char) : Bool :=
  data.all fun c => decide ('0' ≤ c ∧ c ≤ '9')

/-- `REGEXP.ALPHANUMERIC_OUT` (`^[A-Z0-9 $%*+\-./:]*$`). -/
def alnumOutRegex (data : List Char) : Bool :=
  data.all fun c =>
    decide (('A' ≤ c ∧ c ≤ 'Z') ∨ ('0' ≤ c ∧ c ≤ '9')) || " $%*+-./:".data.contains c

/-- `REGEXP.ALPHANUMERIC` (`^[A-Za-z0-9 $%*+\-./:]*$`). -/
def alnumRegex (data : List Char) : Bool :=
  data.all fun c =>
    decide (('A' ≤ c ∧ c ≤ 'Z') ∨ ('a' ≤ c ∧ c ≤ 'z') ∨ ('0' ≤ c ∧ c ≤ '9')) ||
      " $%*+-./:".data.contains c

/-- The UTF-8 encoding loop of `validateData`'s OCTET branch, per
character code. -/
def utf8OfCharCode (ch : Nat) : List Nat :=
  if ch < 0x80 then [ch]
  else if ch < 0x800 then [0xc0 ||| (ch >>> 6), 0x80 ||| (ch &&& 0x3f)]
  else if ch < 0x10000 then
    [0xe0 ||| (ch >>> 12), 0x80 ||| ((ch >>> 6) &&& 0x3f), 0x80 ||| (ch &&& 0x3f)]
  else
    [0xf0 ||| (ch >>> 18), 0x80 ||| ((ch >>> 12) &&& 0x3f),
     0x80 ||| ((ch >>> 6) &&& 0x3f), 0x80 ||| (ch &&& 0x3f)]

/-- The UTF-8 byte list that `validateData` computes (and the constructor
then DISCARDS) for OCTET string data. -/
def validateDataOctetUtf8 (data : List Char) : List Nat :=
  (data.map fun c => utf8OfCharCode c.toNat).flatten

/-- The JavaScript value returned by `validateData` for string data:
`nullV` for the object entry `null`, `strV` the original string, `funcV`
the bare `this.data.toUpperCase` function reference of the ALPHANUMERIC
branch (a port bug: the call parentheses are missing), `bytesV` the UTF-8
list of the OCTET branch. -/
inductive ValidateResult where
  | nullV
  | strV (s : List Char)
  | funcV
  | bytesV (bs : List Nat)
deriving DecidableEq

/-- `validateData` on string data.  The trailing `|| this.data` replaces
a falsy entry (`null`, or `undefined` for an unknown mode) by the
original data, so the `null` signal for a payload/mode mismatch never
escapes; the constructor additionally discards this return value
entirely (`this.validateData();` with no assignment). -/
def validateData (data : List Char) (mode : Int) : ValidateResult :=
  let entry : ValidateResult :=
    if mode = 1 then (if numericRegex data then .strV data else .nullV)
    else if mode = 2 then (if alnumRegex data then .funcV else .nullV)
    else if mode = 4 then .bytesV (validateDataOctetUtf8 data)
    else .nullV
  match entry with
  | .nullV => .strV data
  | e => e

/-- Result of running the constructor on string data: the resolved
configuration or the thrown message. -/
inductive CtorResult where
  | ok (mode : Int) (ecclevel : Option Nat) (ver : Int) (mask : Int)
  | err (msg : String)
deriving DecidableEq

/-- `getMaxDataLen()` when `this.ecclevel` is `undefined` (an invalid
level tag): `nDataBits()` is `NaN` (a number minus `8 * undefined *
undefined`), so `nbits` is `NaN`; then `(NaN / k) | 0` is `0` and every
`NaN < c` comparison is false, so the NUMERIC arm returns
`0 * 3 + 2 = 2`, the ALPHANUMERIC arm `0 * 2 + 1 = 1`, and the OCTET /
KANJI arms `0`.  The version argument of the real method is swallowed by
the `NaN`. -/
def getMaxDataLenNaN (mode : Nat) : Nat :=
  if mode = 1 then 2
  else if mode = 2 then 1
  else if mode = 4 then 0
  else if mode = 8 then 0
  else 0

/-- The `data.length <= this.getMaxDataLen()` test of the version
auto-selection loop.  With an invalid ECC level `this.ecclevel` is
`undefined` and `getMaxDataLen()` collapses to the NaN-coerced per-mode
constants of `getMaxDataLenNaN` (so a 1-digit NUMERIC payload still
"fits").  When the mode never resolved (stayed `-1`), the object lookup
in `getMaxDataLen` reads `undefined` and the `<=` comparison is false.
-/
def fits (dataLen ver : Nat) (ecc : Option Nat) (mode : Int) : Bool :=
  if mode = 1 ∨ mode = 2 ∨ mode = 4 ∨ mode = 8 then
    match ecc with
    | some e => dataLen ≤ getMaxDataLen ver e mode.toNat
    | none => dataLen ≤ getMaxDataLenNaN mode.toNat
  else false

/-- The constructor, for string data.  Faithful to the source order:
mode resolution (throwing for an unknown explicit mode), `validateData`
called and discarded, the `data === null` test (never taken for a
string), the ECC guard (`undefined < 0 || undefined > 3` are both false,
so an unknown level never throws here), version resolution
(`options.version || -1` turns `0` into "unset", and any negative value
also auto-selects), and the mask guard with its `> 8` bound. -/
def ctor (data : List Char) (opts : Options) : CtorResult :=
  let ecc : Option Nat :=
    match opts.ecclevel with
    | none => eccLevelsLookup ['L']
    | some s =>
      let u := jsToUpper s
      eccLevelsLookup (if u = [] then ['L'] else u)
  let ver0 : Int := match opts.version with
    | none => -1
    | some v => if v = 0 then -1 else v
  let modeRes : CtorResult :=
    match opts.mode with
    | none => .ok 0 none 0 0
    | some s =>
      if s = [] then .ok 0 none 0 0
      else match modesLookup (jsToLower s) with
        | some m => .ok (m : Int) none 0 0
        | none => .err "invalid or unsupported mode"
  match modeRes with
  | .err m => .err m
  | .ok explicitMode _ _ _ =>
    let mode : Int :=
      if explicitMode = 0 then
        -- auto-detect; note `this.mode = this.mode || OCTET` keeps a
        -- truthy -1, so the OCTET fallback is unreachable
        let detected : Int :=
          if numericRegex data then 1
          else if alnumOutRegex data then 2
          else -1
        if detected = 0 then 4 else detected
      else explicitMode
    let _ := validateData data mode  -- return value discarded by the source
    let eccThrows := match ecc with
      | none => false                 -- undefined < 0 and undefined > 3 are false
      | some e => decide ((e : Int) < 0 ∨ (e : Int) > 3)
    if eccThrows then .err "invalid ECC level"
    else
      let verRes : CtorResult :=
        if ver0 < 0 then
          match (List.range' 1 40).find? (fun v => fits data.length v ecc mode) with
          | some v => .ok 0 none (v : Int) 0
          | none => .err "too large data"
        else if ver0 < 1 ∨ ver0 > 40 then .err "invalid version"
        else .ok 0 none ver0 0
      match verRes with
      | .err m => .err m
      | .ok _ _ ver _ =>
        let mask : Int := match opts.mask with
          | none => -1
          | some m => m
        if mask ≠ -1 ∧ (mask < 0 ∨ mask > 8) then .err "invalid mask"
        else .ok mode ecc ver mask

/-!  ## Base matrix construction (`makeBaseMatrix`)

Every write of `makeBaseMatrix` sets a matrix cell and simultaneously
marks it reserved, so the whole construction is the left fold of
`applyStamp` over a list of `(row, col, bit)` stamps assembled in source
order. -/

/-- The `for (i = 0; i < n; ++i) { matrix.push([]); reserved.push([]); }`
initialisation: `n` empty rows. -/
def initRows (n : Nat) : Mat :=
  (List.range n).foldl (fun m _ => m.pushA JsArr.emptyA) JsArr.emptyA

/-- One write of `blit` (or of the timing / version loops): sets
`matrix[r][c] = b` and `reserved[r][c] = 1`. -/
def applyStamp (st : Mat × Mat) (s : Nat × Nat × Nat) : Mat × Mat :=
  (setCell st.1 s.1 s.2.1 s.2.2, setCell st.2 s.1 s.2.1 1)

/-- The writes of `blit(y, x, h, w, bits)`:
`matrix[y+i][x+j] = (bits[i] >> j) & 1`. -/
def blitOps (y x h w : Nat) (bits : List Nat) : List (Nat × Nat × Nat) :=
  (List.range h).flatMap fun i => (List.range w).map fun j =>
    (y + i, x + j, (bits.getD i 0 >>> j) &&& 1)

/-- The timing pattern writes (`for (i = 9; i < n - 8; ++i)`):
`matrix[6][i] = matrix[i][6] = ~i & 1`; for nonnegative `i`,
`~i & 1 = (i + 1) % 2`. -/
def timingOps (n : Nat) : List (Nat × Nat × Nat) :=
  (List.range' 9 (n - 17)).flatMap fun i =>
    [(i, 6, (i + 1) % 2), (6, i, (i + 1) % 2)]

/-- The alignment pattern writes (corner positions skipped via
`minj`/`maxj` exactly as in the source). -/
def alignOps (aligns : List Nat) : List (Nat × Nat × Nat) :=
  let m := aligns.length
  (List.range m).flatMap fun i =>
    let minj := if i = 0 ∨ i = m - 1 then 1 else 0
    let maxj := if i = 0 then m - 1 else m
    (List.range' minj (maxj - minj)).flatMap fun j =>
      blitOps (aligns.getD i 0) (aligns.getD j 0) 5 5 [0x1f, 0x11, 0x15, 0x11, 0x1f]

/-- The version information writes (`ver > 6`), with the running bit
counter `k = i * 3 + j`. -/
def versionOps (ver n : Nat) : List (Nat × Nat × Nat) :=
  if needsVerInfo ver then
    let code := augumentbch ver 6 0x1f25 12
    (List.range 6).flatMap fun i => (List.range 3).flatMap fun j =>
      [(n - 11 + j, i, (code >>> (i * 3 + j)) &&& 1),
       (i, n - 11 + j, (code >>> (i * 3 + j)) &&& 1)]
  else []

/-- All writes of `makeBaseMatrix`, in source order. -/
def baseOps (ver : Nat) : List (Nat × Nat × Nat) :=
  let n := getSizeByVer ver
  blitOps 0 0 9 9 [0x7f, 0x41, 0x5d, 0x5d, 0x5d, 0x41, 0x17f, 0x00, 0x40]
    ++ blitOps (n - 8) 0 8 9 [0x100, 0x7f, 0x41, 0x5d, 0x5d, 0x5d, 0x41, 0x7f]
    ++ blitOps 0 (n - 8) 9 8 [0xfe, 0x82, 0xba, 0xba, 0xba, 0x82, 0xfe, 0x00, 0x00]
    ++ timingOps n
    ++ alignOps (alignsOf ver)
    ++ versionOps ver n

/-- `makeBaseMatrix`: the pair `(matrix, reserved)`. -/
def makeBaseMatrix (ver : Nat) : Mat × Mat :=
  let n := getSizeByVer ver
  (baseOps ver).foldl applyStamp (initRows n, initRows n)

/-!  ## Data placement (`putData`) -/

/-- The column heads visited by the outer loop
`for (i = n - 1; i >= 0; i -= 2) { if (i == 6) --i; ... }`; each head `i`
covers columns `i` and `i - 1`.  Fuel-driven (`i + 1` suffices since the
head decreases by at least 2 per round). -/
def zigzagColsAux : Nat → Nat → List Nat
  | 0, _ => []
  | fuel + 1, i =>
    let j := if i = 6 then 5 else i
    if j < 2 then [j] else j :: zigzagColsAux fuel (j - 2)

/-- The column-pair heads for a matrix whose rightmost column is `i`. -/
def zigzagCols (i : Nat) : List Nat := zigzagColsAux (i + 1) i

/-- The cell visiting order of `putData`: for each column head, all `n`
rows in the current direction (up first), two columns per row. -/
def zigzagPositions (n : Nat) : List Nat → Bool → List (Nat × Nat)
  | [], _ => []
  | i :: rest, dirUp =>
    ((List.range n).flatMap fun j =>
      let jj := if dirUp then n - 1 - j else j
      [(jj, i), (jj, i - 1)]) ++ zigzagPositions n rest (!dirUp)

/-- One visit of `putData`: skip reserved cells, otherwise write bit
`(buf[k >> 3] >> (~k & 7)) & 1` and advance `k`.  For `k ≥ 0`,
`~k & 7 = 7 - k % 8`; a read past the buffer is `undefined`, and
`undefined >> x` is `0` (the source comments on this auto-padding). -/
def putDataStep (res : Mat) (buf : List JsVal) (st : Mat × Nat) (rc : Nat × Nat) : Mat × Nat :=
  if truthyCell (getCell res rc.1 rc.2) then st
  else
    (setCell st.1 rc.1 rc.2 (((jsRead buf (st.2 / 8)).toNum >>> (7 - st.2 % 8)) &&& 1),
     st.2 + 1)

/-- `putData(buf)`. -/
def putData (mat res : Mat) (buf : List JsVal) : Mat :=
  ((zigzagPositions mat.len (zigzagCols (mat.len - 1)) true).foldl
    (putDataStep res buf) (mat, 0)).1

/-!  ## Masking (`MASKFUNCS`, `maskData`) -/

/-- `MASKFUNCS[mask](i, j)` (Table 20); `(i/2|0)` and `(j/3|0)` are `Nat`
division.  `MASKFUNCS[m]` for `m ≥ 8` is `undefined` in the source (the
call would throw); the default `false` is never reached in any theorem. -/
def MASKFUNCS (mask i j : Nat) : Bool :=
  if mask = 0 then (i + j) % 2 == 0
  else if mask = 1 then i % 2 == 0
  else if mask = 2 then j % 3 == 0
  else if mask = 3 then (i + j) % 3 == 0
  else if mask = 4 then (i / 2 + j / 3) % 2 == 0
  else if mask = 5 then (i * j) % 2 + (i * j) % 3 == 0
  else if mask = 6 then ((i * j) % 2 + (i * j) % 3) % 2 == 0
  else if mask = 7 then ((i + j) % 2 + (i * j) % 3) % 2 == 0
  else false

/-- One cell of `maskData`:
`if (!this.reserved[i][j]) this.matrix[i][j] ^= Number(MASKFUNCS[mask](i, j))`.
A hole reads `undefined`, which `^` coerces to `0`. -/
def maskStep (res : Mat) (mask : Nat) (m : Mat) (rc : Nat × Nat) : Mat :=
  if truthyCell (getCell res rc.1 rc.2) then m
  else setCell m rc.1 rc.2
    ((getCell m rc.1 rc.2).getD 0 ^^^ (if MASKFUNCS mask rc.1 rc.2 then 1 else 0))

/-- The inner (`j`) loop of `maskData` for row `i`. -/
def maskRow (res : Mat) (mask n i : Nat) (m : Mat) : Mat :=
  (List.range n).foldl (fun m j => maskStep res mask m (i, j)) m

/-- `maskData(mask)`. -/
def maskData (m res : Mat) (mask : Nat) : Mat :=
  (List.range m.len).foldl (fun m2 i => maskRow res mask m.len i m2) m

/-!  ## Format information (`putFormatInfo`) -/

/-- `putFormatInfo(mask)`: the 15 format bits written to both copies
(`matrix[8][c]` is assigned first, then `matrix[r][8]`, mirroring the
right-to-left chained assignment). -/
def putFormatInfo (m : Mat) (ecclevel mask : Nat) : Mat :=
  let n := m.len
  let code := augumentbch ((ecclevel <<< 3) ||| mask) 5 0x537 10 ^^^ 0x5412
  (List.range 15).foldl
    (fun m i =>
      let r := [0, 1, 2, 3, 4, 5, 7, 8, n-7, n-6, n-5, n-4, n-3, n-2, n-1].getD i 0
      let c := [n-1, n-2, n-3, n-4, n-5, n-6, n-7, n-8, 7, 5, 4, 3, 2, 1, 0].getD i 0
      setCell (setCell m 8 c ((code >>> i) &&& 1)) r 8 ((code >>> i) &&& 1))
    m

/-!  ## Penalty evaluation (`evaluateMatrix`)

The row run-length loop of the source has a scoping bug: the dark-run
counter is redeclared (`for (let k = 0; ...)`) inside the first inner
loop, shadowing the outer `let k;`, so `groups.push(k)` after a dark run
pushes the outer, still-`undefined` `k`.  The column loop uses
`for (k = 0; ...)` and is unaffected.  Entries of `groups` are therefore
`Option Nat`, with `none` for the `undefined` pushes. -/

/-- The truthiness of the cells of row `i` (left to right). -/
def rowBools (m : Mat) (n i : Nat) : List Bool :=
  (List.range n).map fun j => truthyCell (getCell m i j)

/-- The truthiness of the cells of column `i` (top to bottom). -/
def colBools (m : Mat) (n i : Nat) : List Bool :=
  (List.range n).map fun j => truthyCell (getCell m j i)

/-- Row group builder WITH the shadowed-`k` bug: each dark run pushes
`undefined` (`none`), each light run pushes its true length.  Fuel-driven
(the list length suffices, as each round consumes at least one cell). -/
def groupsRowAux : Nat → List Bool → List (Option Nat)
  | 0, _ => []
  | _, [] => []
  | fuel + 1, bs =>
    let rest1 := bs.dropWhile id
    let light := rest1.takeWhile (fun b => !b)
    let rest2 := rest1.dropWhile (fun b => !b)
    none :: some light.length :: groupsRowAux fuel rest2

/-- Column group builder (correct in the source): dark and light run
lengths alternate. -/
def groupsColAux : Nat → List Bool → List (Option Nat)
  | 0, _ => []
  | _, [] => []
  | fuel + 1, bs =>
    let dark := bs.takeWhile id
    let rest1 := bs.dropWhile id
    let light := rest1.takeWhile (fun b => !b)
    let rest2 := rest1.dropWhile (fun b => !b)
    some dark.length :: some light.length :: groupsColAux fuel rest2

/-- `undefined >= x` is false; `v >= x` is the numeric comparison. -/
def jsGeOpt (g : Option Nat) (x : Nat) : Bool :=
  match g with
  | some v => v ≥ x
  | none => false

/-- The indices `5, 7, 9, ...` of the finder-like loop
(`for (i = 5; i < groups.length; i += 2)`). -/
def finderIdxs (len : Nat) : List Nat := List.range' 5 ((len - 4) / 2) 2

/-- `evaluategroup(groups)`.  `groups[i] >= 5` is false for an
`undefined` entry; in the finder-like test `3 * undefined` is `NaN` and
nothing loosely equals `NaN`, so an `undefined` pivot never scores. -/
def evaluategroup (groups : List (Option Nat)) : Nat :=
  let consecutive := groups.foldl
    (fun s g => match g with
      | some v => if v ≥ 5 then s + 3 + (v - 5) else s
      | none => s) 0
  let finder := (finderIdxs groups.length).foldl
    (fun s i =>
      let hit := match groups.getD i none with
        | none => false
        | some v =>
          groups.getD (i-1) none == some v && groups.getD (i-2) none == some (3*v) &&
          groups.getD (i-3) none == some v && groups.getD (i-4) none == some v &&
          (jsGeOpt (groups.getD (i-5) none) (4*v) || jsGeOpt (groups.getD (i+1) none) (4*v))
      if hit then s + 40 else s) 0
  consecutive + finder

/-- `evaluateMatrix()`.  The 2x2 test `row[j-1] == p && nextrow[j] === p
&& nextrow[j-1] === p` compares number cells (and, off the last row,
`undefined`); for these values loose and strict equality both coincide
with equality of the `Option Nat` reads.  The density term
`PENALTY_DENSITY * ((Math.abs(nblacks/n/n - 0.5) / 0.05) | 0)` equals
`10 * (|20*nblacks - 10*n^2| / n^2)` in exact arithmetic; the IEEE
computation of the source can differ by 1 when the quotient lands
exactly on an integer, which no claim below depends on. -/
def evaluateMatrix (m : Mat) : Nat :=
  let n := m.len
  let rowcol := (List.range n).foldl
    (fun s i =>
      s + evaluategroup (some 0 :: groupsRowAux n (rowBools m n i))
        + evaluategroup (some 0 :: groupsColAux n (colBools m n i))) 0
  let twoByTwo := (List.range n).foldl
    (fun s i =>
      (List.range' 1 (n - 1)).foldl
        (fun s j =>
          let p := getCell m i j
          if getCell m i (j-1) == p && getCell m (i+1) j == p &&
              getCell m (i+1) (j-1) == p
          then s + 3 else s) s) 0
  let nblacks := (List.range n).foldl
    (fun s i => (List.range n).foldl (fun s j => s + (getCell m i j).getD 0) s) 0
  let dist := if 20 * nblacks ≥ 10 * n * n then 20 * nblacks - 10 * n * n
    else 10 * n * n - 20 * nblacks
  rowcol + twoByTwo + 10 * (dist / (n * n))

/-!  ## Mask selection and `generate` -/

/-- `findBestMask()` for the auto case (`this.mask < 0`): score all eight
masks, reverting each, and keep the lowest score (ties to the lowest
index).  Returns the (mutated) matrix and the chosen mask. -/
def findBestMask (mat res : Mat) (ecclevel : Nat) : Mat × Nat :=
  let m0 := maskData mat res 0
  let m0 := putFormatInfo m0 ecclevel 0
  let bestscore := evaluateMatrix m0
  let m0 := maskData m0 res 0
  let st := (List.range' 1 7).foldl
    (fun (st : Mat × Nat × Nat) mask =>
      let m := maskData st.1 res mask
      let m := putFormatInfo m ecclevel mask
      let score := evaluateMatrix m
      let bb := if st.2.2 > score then (mask, score) else (st.2.1, st.2.2)
      (maskData m res mask, bb.1, bb.2))
    (m0, 0, bestscore)
  (st.1, st.2.1)

/-- `generate()`: encode, augment ECC, build the base matrix, place the
data, choose / apply the mask, write the format information.  `mask` is
the constructor-resolved value (`-1` = auto). -/
def generate (data : List Char) (ver ecclevel mode : Nat) (mask : Int) : Mat :=
  let buf := encode ver mode data (nDataBits ver ecclevel / 8)
  let buf := augumentEccs buf (nBlocks ver ecclevel) (GENPOLY.getD (eccPerBlock ver ecclevel) [])
  let st := makeBaseMatrix ver
  let mat := putData st.1 st.2 buf
  let fm := if mask < 0 then findBestMask mat st.2 ecclevel else (mat, mask.toNat)
  putFormatInfo (maskData fm.1 st.2 fm.2) ecclevel fm.2

/-!  ## Spec-side reference for claim C2 -/

/-- Modelled from the spec (§4.4, OCTET: "each byte packed in 8 bits;
text is first UTF-8 encoded", with the length indicator holding the
UTF-8 byte count): the code-word stream the spec prescribes for an OCTET
text payload.  Used only as the comparison point for C2; everything it
shares with the source (`pack`, `padBuf`, `nDataLenBits`,
`validateDataOctetUtf8`) is the source's own code. -/
def encodeOctetSpec (ver : Nat) (data : List Char) (maxbuflen : Nat) : List Nat :=
  let bytes := validateDataOctetUtf8 data
  let st : PackSt := ⟨[], 0, 8⟩
  let st := pack st 4 4
  let st := pack st bytes.length (nDataLenBits ver 4)
  let st := bytes.foldl (fun st b => pack st b 8) st
  let st := pack st 0 4
  let buf := if st.remaining < 8 then st.buf ++ [st.bits] else st.buf
  padBuf buf maxbuflen

/-!  ## Claims C2 - C8 -/

/-- C2.  The OCTET path does NOT emit UTF-8: `validateData` computes the
UTF-8 bytes but the constructor discards them (`this.validateData();`
with no assignment), so `encode` packs `ToInt32(ToNumber(character))` of
each original character - `0` for `"A"` - and the length indicator holds
the character count.  For payload `"A"` (UTF-8 `[0x41]`) the emitted
code words are `40 10 00 ...` where the spec (`encodeOctetSpec`)
prescribes `40 14 10 ...`. -/
theorem c2_octet_not_utf8 :
    validateDataOctetUtf8 "A".data = [0x41] ∧
    encode 1 4 "A".data 19 =
      [0x40, 0x10, 0x00, 0xec, 0x11, 0xec, 0x11, 0xec, 0x11, 0xec, 0x11,
       0xec, 0x11, 0xec, 0x11, 0xec, 0x11, 0xec, 0x11] ∧
    encodeOctetSpec 1 "A".data 19 =
      [0x40, 0x14, 0x10, 0xec, 0x11, 0xec, 0x11, 0xec, 0x11, 0xec, 0x11,
       0xec, 0x11, 0xec, 0x11, 0xec, 0x11, 0xec, 0x11] ∧
    encode 1 4 "A".data 19 ≠ encodeOctetSpec 1 "A".data 19 := by decide

/-- The 5 x 5 all-dark matrix used as the concrete input for C3. -/
def allDark5 : Mat :=
  (List.range 5).foldl
    (fun m r => (List.range 5).foldl (fun m c => setCell m r c 1) m)
    (initRows 5)

/-- C3.  In the row evaluation the dark-run length is pushed as the
shadowed, still-`undefined` outer `k`, so a row that is one maximal dark
run of length 5 contributes `0` instead of the claimed `N1 + (5 - 5) = 3`;
the column evaluation (which assigns the outer `k`) scores the same run
correctly as `3`. -/
theorem c3_row_runs_uncounted :
    rowBools allDark5 5 0 = [true, true, true, true, true] ∧
    groupsRowAux 5 (rowBools allDark5 5 0) = [none, some 0] ∧
    groupsColAux 5 (colBools allDark5 5 0) = [some 5, some 0] ∧
    evaluategroup (some 0 :: groupsRowAux 5 (rowBools allDark5 5 0)) = 0 ∧
    evaluategroup (some 0 :: groupsColAux 5 (colBools allDark5 5 0)) = 3 := by decide

/-- C4.  `calculateEcc` does not always return `genpoly.length` bytes:
for data block `[1, 3]` and the degree-2 generator `GENPOLY[2] = [25, 1]`
the final division step has a zero leading byte, the buffer (one short of
the claimed `k` zero bytes, because `modulus.push(new Array(2).fill(0))`
pushed a single array element) never grows to full length, and the
returned slice is the single byte `[2]` where the remainder of
`[1, 3, 0, 0]` is the two bytes `[2, 0]`. -/
theorem c4_calculateEcc_truncates :
    GENPOLY.getD 2 [] = [25, 1] ∧
    calculateEcc [1, 3] [25, 1] = [.num 2] ∧
    (calculateEcc [1, 3] [25, 1]).length = 1 := by decide

/-- C5.  A payload/mode mismatch is NOT rejected: for payload `"A"` with
explicit NUMERIC mode the constructor succeeds (the `null` produced
inside `validateData` is swallowed by `|| this.data`, and the return
value of `this.validateData()` is discarded anyway). -/
theorem c5_mismatch_not_rejected :
    numericRegex "A".data = false ∧
    validateData "A".data 1 = .strV "A".data ∧
    ctor "A".data ⟨none, none, some "numeric".data, none⟩ = .ok 1 (some 1) 1 (-1) := by decide

/-- C6.  The mask guard is `mask < 0 || mask > 8`, so the out-of-range
mask `8` is accepted (mask `9` and masks `0..7` behave as claimed);
using mask `8` would later index the 8-entry `MASKFUNCS` table out of
range. -/
theorem c6_mask8_accepted :
    ctor "0".data ⟨none, none, none, some 8⟩ = .ok 1 (some 1) 1 8 ∧
    ctor "0".data ⟨none, none, none, some 9⟩ = .err "invalid mask" ∧
    ctor "0".data ⟨none, none, none, some 7⟩ = .ok 1 (some 1) 1 7 ∧
    ctor "0".data ⟨none, none, none, some 0⟩ = .ok 1 (some 1) 1 0 := by decide

/-- C7.  An unknown ECC level never triggers `"invalid ECC level"`: the
lookup yields `undefined` and both guard comparisons (`undefined < 0`,
`undefined > 3`) are false, so the guard is dead.  The constructor then
either SUCCEEDS with the undefined level (payload `"0"`: the NaN-valued
`getMaxDataLen` coerces to 2 for NUMERIC, so version 1 "fits"), or, for
a payload longer than that NaN-capacity (`"012"`), exhausts the version
loop and throws the unrelated `"too large data"` - never the claimed
error.  The four valid tags (case-insensitively) map to the internal
indices L=1, M=0, Q=3, H=2 without throwing. -/
theorem c7_invalid_ecclevel_no_throw :
    ctor "0".data ⟨some "X".data, none, none, none⟩ = .ok 1 none 1 (-1) ∧
    ctor "0".data ⟨some "X".data, none, none, none⟩ ≠ .err "invalid ECC level" ∧
    ctor "012".data ⟨some "X".data, none, none, none⟩ = .err "too large data" ∧
    ctor "012".data ⟨some "X".data, none, none, none⟩ ≠ .err "invalid ECC level" ∧
    ctor "0".data ⟨some "L".data, none, none, none⟩ = .ok 1 (some 1) 1 (-1) ∧
    ctor "0".data ⟨some "m".data, none, none, none⟩ = .ok 1 (some 0) 1 (-1) ∧
    ctor "0".data ⟨some "q".data, none, none, none⟩ = .ok 1 (some 3) 1 (-1) ∧
    ctor "0".data ⟨some "H".data, none, none, none⟩ = .ok 1 (some 2) 1 (-1) := by decide

/-- C8 (counterexample).  User version `0` is outside `1..40` but does
not throw: `options.version || -1` treats the falsy `0` as unset and
auto-selects version 1. -/
theorem c8_version_zero_accepted :
    ctor "0".data ⟨none, some 0, none, none⟩ = .ok 1 (some 1) 1 (-1) := by decide

/-- C8 (amended).  The constructor throws `"invalid version"` exactly for
user versions above 40; version `0` and negative versions are treated as
unset and auto-select (here version 1 for payload `"0"`); versions in
`1..40` are used unchanged. -/
theorem c8_version_check_amended (v : Int) :
    (v > 40 → ctor "0".data ⟨none, some v, none, none⟩ = .err "invalid version") ∧
    (1 ≤ v → v ≤ 40 → ctor "0".data ⟨none, some v, none, none⟩ = .ok 1 (some 1) v (-1)) ∧
    (v ≤ 0 → ctor "0".data ⟨none, some v, none, none⟩ = .ok 1 (some 1) 1 (-1)) := by
  refine ⟨fun h => ?_, fun h1 h40 => ?_, fun h => ?_⟩
  · have h0 : v ≠ 0 := by omega
    unfold ctor
    simp only [h0, ite_false]
    rw [if_neg (show ¬ v < 0 by omega), if_pos (show v < 1 ∨ v > 40 by omega)]
    rfl
  · have h0 : v ≠ 0 := by omega
    unfold ctor
    simp only [h0, ite_false]
    rw [if_neg (show ¬ v < 0 by omega), if_neg (show ¬ (v < 1 ∨ v > 40) by omega)]
    rfl
  · rcases h.lt_or_eq with hlt | heq
    · have h0 : v ≠ 0 := by omega
      unfold ctor
      simp only [h0, ite_false]
      rw [if_pos hlt]
      rfl
    · subst heq
      decide

/-- Witness for `c8_version_check_amended` at `v = 41`. -/
theorem c8_witness :
    (41 : Int) > 40 ∧
    ctor "0".data ⟨none, some 41, none, none⟩ = .err "invalid version" :=
  ⟨by decide, (c8_version_check_amended 41).1 (by decide)⟩

/-!  ## Claim C9: maskData is an involution away from reserved cells -/

lemma getCell_setCell (m : Mat) (r c v r' c' : Nat) :
    getCell (setCell m r c v) r' c' =
      if r' = r ∧ c' = c then some v else getCell m r' c' := by
  unfold getCell setCell JsArr.setA
  by_cases hr : r' = r <;> by_cases hc : c' = c <;> simp [hr, hc]

lemma getCell_maskStep (res : Mat) (mask : Nat) (m : Mat) (i j r c : Nat) :
    getCell (maskStep res mask m (i, j)) r c =
      if r = i ∧ c = j ∧ ¬ truthyCell (getCell res i j)
      then some ((getCell m i j).getD 0 ^^^ (if MASKFUNCS mask i j then 1 else 0))
      else getCell m r c := by
  unfold maskStep
  by_cases h : truthyCell (getCell res i j)
  · simp [h]
  · simp only [h, Bool.false_eq_true, if_false, getCell_setCell]
    by_cases hr : r = i <;> by_cases hc : c = j <;> simp [hr, hc, h]

lemma getCell_maskRow (res : Mat) (mask i r c : Nat) :
    ∀ (n : Nat) (m : Mat),
    getCell (maskRow res mask n i m) r c =
      if r = i ∧ c < n ∧ ¬ truthyCell (getCell res r c)
      then some ((getCell m r c).getD 0 ^^^ (if MASKFUNCS mask r c then 1 else 0))
      else getCell m r c := by
  intro n
  induction n with
  | zero => intro m; simp [maskRow]
  | succ n ih =>
    intro m
    unfold maskRow
    rw [List.range_succ, List.foldl_append]
    simp only [List.foldl_cons, List.foldl_nil]
    rw [getCell_maskStep]
    by_cases hmain : r = i ∧ c = n ∧ ¬ truthyCell (getCell res i n)
    · obtain ⟨h1, h2, h3⟩ := hmain
      subst h1; subst h2
      rw [if_pos ⟨rfl, rfl, h3⟩]
      have := ih m
      unfold maskRow at this
      rw [this]
      simp [h3]
    · rw [if_neg hmain]
      have := ih m
      unfold maskRow at this
      rw [this]
      by_cases hcond : r = i ∧ c < n ∧ ¬ truthyCell (getCell res r c)
      · have hc2 : r = i ∧ c < n + 1 ∧ ¬ truthyCell (getCell res r c) = true :=
          ⟨hcond.1, Nat.lt_succ_of_lt hcond.2.1, hcond.2.2⟩
        rw [if_pos hcond, if_pos hc2]
      · rw [if_neg hcond]
        by_cases hcond2 : r = i ∧ c < n + 1 ∧ ¬ truthyCell (getCell res r c)
        · exfalso
          obtain ⟨h1, h2, h3⟩ := hcond2
          rcases Nat.lt_succ_iff_lt_or_eq.mp h2 with h | h
          · exact hcond ⟨h1, h, h3⟩
          · exact hmain ⟨h1, h, by rwa [h1, h] at h3⟩
        · rw [if_neg hcond2]

lemma getCell_maskDataAux (res : Mat) (mask n r c : Nat) :
    ∀ (k : Nat) (m : Mat),
    getCell ((List.range k).foldl (fun m2 i => maskRow res mask n i m2) m) r c =
      if r < k ∧ c < n ∧ ¬ truthyCell (getCell res r c)
      then some ((getCell m r c).getD 0 ^^^ (if MASKFUNCS mask r c then 1 else 0))
      else getCell m r c := by
  intro k
  induction k with
  | zero => intro m; simp
  | succ k ih =>
    intro m
    rw [List.range_succ, List.foldl_append]
    simp only [List.foldl_cons, List.foldl_nil]
    rw [getCell_maskRow]
    by_cases hmain : r = k ∧ c < n ∧ ¬ truthyCell (getCell res r c)
    · obtain ⟨h1, h2, h3⟩ := hmain
      subst h1
      have ha : r = r ∧ c < n ∧ ¬ truthyCell (getCell res r c) = true := ⟨rfl, h2, h3⟩
      have hb : ¬ (r < r ∧ c < n ∧ ¬ truthyCell (getCell res r c) = true) :=
        fun h => absurd h.1 (lt_irrefl r)
      have hc2 : r < r + 1 ∧ c < n ∧ ¬ truthyCell (getCell res r c) = true :=
        ⟨Nat.lt_succ_self r, h2, h3⟩
      rw [if_pos ha, ih m, if_neg hb, if_pos hc2]
    · rw [if_neg hmain, ih m]
      by_cases hcond : r < k ∧ c < n ∧ ¬ truthyCell (getCell res r c)
      · have hc2 : r < k + 1 ∧ c < n ∧ ¬ truthyCell (getCell res r c) = true :=
          ⟨Nat.lt_succ_of_lt hcond.1, hcond.2.1, hcond.2.2⟩
        rw [if_pos hcond, if_pos hc2]
      · rw [if_neg hcond]
        by_cases hcond2 : r < k + 1 ∧ c < n ∧ ¬ truthyCell (getCell res r c)
        · exfalso
          obtain ⟨h1, h2, h3⟩ := hcond2
          rcases Nat.lt_succ_iff_lt_or_eq.mp h1 with h | h
          · exact hcond ⟨h, h2, h3⟩
          · exact hmain ⟨h, h2, h3⟩
        · rw [if_neg hcond2]


lemma len_maskStep (res : Mat) (mask : Nat) (m : Mat) (i j : Nat) (h : i < m.len) :
    (maskStep res mask m (i, j)).len = m.len := by
  unfold maskStep
  split
  · rfl
  · show (setCell m i j _).len = m.len
    unfold setCell JsArr.setA
    simp [Nat.max_eq_left h]

lemma len_maskRow (res : Mat) (mask i : Nat) :
    ∀ (n : Nat) (m : Mat), i < m.len → (maskRow res mask n i m).len = m.len := by
  intro n
  induction n with
  | zero => intro m _; rfl
  | succ n ih =>
    intro m h
    have e : maskRow res mask (n + 1) i m = maskStep res mask (maskRow res mask n i m) (i, n) := by
      unfold maskRow
      rw [List.range_succ, List.foldl_append]
      rfl
    have h2 : i < (maskRow res mask n i m).len := by rw [ih m h]; exact h
    rw [e, len_maskStep res mask _ i n h2]
    exact ih m h

lemma len_maskDataAux (res : Mat) (mask n : Nat) :
    ∀ (k : Nat) (m : Mat), k ≤ m.len →
    ((List.range k).foldl (fun m2 i => maskRow res mask n i m2) m).len = m.len := by
  intro k
  induction k with
  | zero => intro m _; rfl
  | succ k ih =>
    intro m h
    rw [List.range_succ, List.foldl_append]
    simp only [List.foldl_cons, List.foldl_nil]
    have hk : k < ((List.range k).foldl (fun m2 i => maskRow res mask n i m2) m).len := by
      rw [ih m (Nat.le_of_succ_le h)]; omega
    rw [len_maskRow res mask k n _ hk, ih m (Nat.le_of_succ_le h)]

lemma len_maskData (m res : Mat) (mask : Nat) : (maskData m res mask).len = m.len :=
  len_maskDataAux res mask m.len m.len m (le_refl _)

lemma getCell_maskData (m res : Mat) (mask r c : Nat) :
    getCell (maskData m res mask) r c =
      if r < m.len ∧ c < m.len ∧ ¬ truthyCell (getCell res r c)
      then some ((getCell m r c).getD 0 ^^^ (if MASKFUNCS mask r c then 1 else 0))
      else getCell m r c :=
  getCell_maskDataAux res mask m.len r c m.len m

/-- C9.  For every mask `m` in `0..7` and every matrix / reserved state
whose cells are 0 or 1, applying `maskData(m)` twice restores every
matrix cell, and a single application never changes a cell whose
reserved flag is set (truthy): each pass xors exactly the non-reserved
in-range cells with the same mask bit. -/
theorem c9_mask_involution (mask : Nat) (_hmask : mask < 8) (m res : Mat)
    (hbits : ∀ r c, r < m.len → c < m.len →
      getCell m r c = some 0 ∨ getCell m r c = some 1) :
    (∀ r c, getCell (maskData (maskData m res mask) res mask) r c = getCell m r c) ∧
    (∀ r c, truthyCell (getCell res r c) →
      getCell (maskData m res mask) r c = getCell m r c) := by
  constructor
  · intro r c
    rw [getCell_maskData, len_maskData, getCell_maskData]
    by_cases h : r < m.len ∧ c < m.len ∧ ¬ truthyCell (getCell res r c)
    · rw [if_pos h, if_pos h]
      rcases hbits r c h.1 h.2.1 with hb | hb <;>
        rw [hb] <;> simp [Nat.xor_assoc, Nat.xor_self, Nat.xor_zero]
    · rw [if_neg h, if_neg h]
  · intro r c h
    rw [getCell_maskData]
    have : ¬ (r < m.len ∧ c < m.len ∧ ¬ truthyCell (getCell res r c)) := by
      intro h2; exact h2.2.2 h
    rw [if_neg this]

/-- Concrete 1 x 1 inputs for the C9 witness. -/
def mask1Mat : Mat := setCell (initRows 1) 0 0 1

def mask1Res : Mat := initRows 1

theorem c9_witness :
    (0 : Nat) < 8 ∧
    getCell (maskData (maskData mask1Mat mask1Res 0) mask1Res 0) 0 0 =
      getCell mask1Mat 0 0 :=
  ⟨by decide,
    (c9_mask_involution 0 (by decide) mask1Mat mask1Res
      (fun r c hr hc => by
        have h1 : mask1Mat.len = 1 := by decide
        rw [h1] at hr hc
        have hr0 : r = 0 := by omega
        have hc0 : c = 0 := by omega
        subst hr0; subst hc0
        decide)).1 0 0⟩

/-!  ## Claim C10: length of the padded code-word buffer -/

/-- Number of bits accumulated in a pack state. -/
def bitCount (st : PackSt) : Nat := 8 * st.buf.length + (8 - st.remaining)

/-- The `remaining` field stays in `1..8`. -/
def PackInv (st : PackSt) : Prop := 1 ≤ st.remaining ∧ st.remaining ≤ 8

lemma packWhileAux_length : ∀ (fuel x n : Nat), n ≤ 8 * fuel →
    (packWhileAux fuel x n).length = n / 8 := by
  intro fuel
  induction fuel with
  | zero => intro x n h; interval_cases n; rfl
  | succ fuel ih =>
    intro x n h
    unfold packWhileAux
    by_cases h8 : n ≥ 8
    · rw [if_pos h8]
      simp only [List.length_cons]
      rw [ih x (n - 8) (by omega)]
      omega
    · rw [if_neg h8]
      simp only [List.length_nil]
      omega

lemma pack_spec (st : PackSt) (x n : Nat) (h : PackInv st) :
    PackInv (pack st x n) ∧ bitCount (pack st x n) = bitCount st + n := by
  obtain ⟨h1, h2⟩ := h
  unfold pack
  by_cases hb : st.remaining ≤ n
  · rw [if_pos hb]
    have hpw : (packWhile x (n - st.remaining)).length = (n - st.remaining) / 8 :=
      packWhileAux_length _ x _ (by omega)
    by_cases hz : (n - st.remaining) % 8 = 0
    · rw [if_pos hz]
      refine ⟨⟨by norm_num, by norm_num⟩, ?_⟩
      unfold bitCount
      dsimp only
      simp only [List.length_append, List.length_cons, List.length_nil, hpw]
      omega
    · rw [if_neg hz]
      refine ⟨⟨by dsimp only; omega, by dsimp only; omega⟩, ?_⟩
      unfold bitCount
      dsimp only
      simp only [List.length_append, List.length_cons, List.length_nil, hpw]
      omega
  · rw [if_neg hb]
    by_cases hn : n = 0
    · rw [if_pos hn]
      exact ⟨⟨h1, h2⟩, by unfold bitCount; omega⟩
    · rw [if_neg hn]
      refine ⟨⟨by dsimp only; omega, by dsimp only; omega⟩, ?_⟩
      unfold bitCount
      dsimp only
      omega

lemma packOctet_spec (l : List Char) : ∀ (st : PackSt), PackInv st →
    PackInv (packOctet l st) ∧ bitCount (packOctet l st) = bitCount st + 8 * l.length := by
  induction l with
  | nil => intro st h; exact ⟨h, by simp [packOctet]⟩
  | cons c t ih =>
    intro st h
    have hstep := pack_spec st (jsCharNum c) 8 h
    have hrec := ih (pack st (jsCharNum c) 8) hstep.1
    unfold packOctet at hrec ⊢
    simp only [List.foldl_cons]
    refine ⟨hrec.1, ?_⟩
    rw [hrec.2, hstep.2]
    simp only [List.length_cons]
    ring

lemma padBufAux_length : ∀ (fuel : Nat) (buf : List Nat) (maxbuflen : Nat),
    buf.length ≤ maxbuflen → maxbuflen ≤ buf.length + 2 * fuel →
    (padBufAux fuel buf maxbuflen).length = maxbuflen := by
  intro fuel
  induction fuel with
  | zero =>
    intro buf maxbuflen hle hfu
    unfold padBufAux
    omega
  | succ fuel ih =>
    intro buf maxbuflen hle hfu
    unfold padBufAux
    by_cases hlt : buf.length + 1 < maxbuflen
    · rw [if_pos hlt]
      rw [ih (buf ++ [0xec, 0x11]) maxbuflen (by simp; omega) (by simp; omega)]
    · rw [if_neg hlt]
      by_cases hlt2 : buf.length < maxbuflen
      · rw [if_pos hlt2]; simp; omega
      · rw [if_neg hlt2]; omega

lemma padBuf_length (buf : List Nat) (maxbuflen : Nat) (h : buf.length ≤ maxbuflen) :
    (padBuf buf maxbuflen).length = maxbuflen :=
  padBufAux_length maxbuflen buf maxbuflen h (by omega)

/-- Finite table check: every `(version, level)` has a data-bit count that
is a multiple of 8 and at least 24 bits. -/
def capCheck : Bool :=
  (List.range 40).all fun k => (List.range 4).all fun e =>
    decide (nDataBits (k + 1) e % 8 = 0 ∧ 24 ≤ nDataBits (k + 1) e)

lemma capCheck_true : capCheck = true := by decide

lemma capFacts (v e : Nat) (h1 : 1 ≤ v) (h2 : v ≤ 40) (he : e ≤ 3) :
    nDataBits v e % 8 = 0 ∧ 24 ≤ nDataBits v e := by
  have hv : v - 1 ∈ List.range 40 := List.mem_range.mpr (by omega)
  have he4 : e ∈ List.range 4 := List.mem_range.mpr (by omega)
  have h3 := List.all_eq_true.mp capCheck_true _ hv
  have h4 := List.all_eq_true.mp h3 _ he4
  have h5 := of_decide_eq_true h4
  have hveq : v - 1 + 1 = v := by omega
  rwa [hveq] at h5

/-- C10 (amended).  For every version, ECC level and OCTET payload within
capacity, the padded code-word buffer produced by `encode` has length
`nDataBits() >> 3` - which already excludes the ECC code words; it equals
`(nFullBits() & ~7) >> 3` minus the ECC code-word count, not
`nDataBits() >> 3` minus that count as the claim stated.  (For OCTET the
bitstream plus terminator always fits, because `nDataBits` is a multiple
of 8 while mode+length bits are congruent to 4 mod 8; NUMERIC /
ALPHANUMERIC payloads can exactly fill the capacity, in which case the
flushed terminator overflows the buffer by one byte - the boundary the
spec itself flags in its design notes.) -/
theorem c10_encode_length_amended (ver e : Nat) (data : List Char)
    (h1 : 1 ≤ ver) (h2 : ver ≤ 40) (he : e ≤ 3)
    (hfit : data.length ≤ getMaxDataLen ver e 4) :
    (encode ver 4 data (nDataBits ver e / 8)).length = nDataBits ver e / 8 := by
  obtain ⟨hmod, hge⟩ := capFacts ver e h1 h2 he
  have i0 : PackInv ⟨[], 0, 8⟩ := ⟨by norm_num, by norm_num⟩
  have s1 := pack_spec ⟨[], 0, 8⟩ 4 4 i0
  have s2 := pack_spec _ data.length (nDataLenBits ver 4) s1.1
  have s3 := packOctet_spec data _ s2.1
  have s4 := pack_spec _ 0 4 s3.1
  set stf := pack (packOctet data
    (pack (pack ⟨[], 0, 8⟩ 4 4) data.length (nDataLenBits ver 4))) 0 4 with hstf
  have henc : encode ver 4 data (nDataBits ver e / 8) =
      padBuf (if stf.remaining < 8 then stf.buf ++ [stf.bits] else stf.buf)
        (nDataBits ver e / 8) := rfl
  have hb0 : bitCount ⟨[], 0, 8⟩ = 0 := rfl
  have hB : bitCount stf = 8 + nDataLenBits ver 4 + 8 * data.length := by
    rw [hstf, s4.2, s3.2, s2.2, s1.2, hb0]
    ring
  have hlen : nDataLenBits ver 4 = 8 ∨ nDataLenBits ver 4 = 16 := by
    by_cases hv : ver < 10 <;> simp [nDataLenBits, hv]
  have hmax : getMaxDataLen ver e 4 = (nDataBits ver e - 4 - nDataLenBits ver 4) / 8 := by
    simp [getMaxDataLen]
  rw [hmax] at hfit
  have hinv := s4.1
  obtain ⟨hr1, hr8⟩ := hinv
  have hbc : bitCount stf = 8 * stf.buf.length + (8 - stf.remaining) := rfl
  rw [henc]
  apply padBuf_length
  rcases hlen with hl | hl <;>
    (rw [hl] at hB hfit; by_cases hrem : stf.remaining < 8 <;>
      simp only [hrem, if_true, if_false, List.length_append, List.length_cons,
        List.length_nil] <;> omega)

/-- C10 (counterexample).  For version 1, level L (index 1), OCTET
payload "A" (which fits: 1 <= 17): the buffer has length
`nDataBits() >> 3 = 19`, not `nDataBits() >> 3` minus the 7 ECC code
words = 12 as the claim states. -/
theorem c10_length_counterexample :
    (encode 1 4 "A".data (nDataBits 1 1 / 8)).length = 19 ∧
    nDataBits 1 1 / 8 = 19 ∧
    eccPerBlock 1 1 * nBlocks 1 1 = 7 ∧
    (encode 1 4 "A".data (nDataBits 1 1 / 8)).length ≠
      nDataBits 1 1 / 8 - eccPerBlock 1 1 * nBlocks 1 1 := by decide

/-- Witness for `c10_encode_length_amended` at version 1, level L,
payload "A". -/
theorem c10_witness :
    (1 ≤ 1 ∧ 1 ≤ 40 ∧ 1 ≤ 3 ∧ "A".data.length ≤ getMaxDataLen 1 1 4) ∧
    (encode 1 4 "A".data (nDataBits 1 1 / 8)).length = nDataBits 1 1 / 8 :=
  ⟨by decide,
    c10_encode_length_amended 1 1 "A".data (by decide) (by decide) (by decide) (by decide)⟩

/-!  ## Claim C1, part 1: matrix well-formedness infrastructure -/

/-- Length of row `r` (a missing row reads as the empty array). -/
def rowLen (m : Mat) (r : Nat) : Nat := ((m.get r).getD JsArr.emptyA).len

lemma len_pushA {α : Type} (a : JsArr α) (v : α) : (a.pushA v).len = a.len + 1 := by
  unfold JsArr.pushA JsArr.setA
  simp

lemma get_pushA {α : Type} (a : JsArr α) (v : α) (j : Nat) :
    (a.pushA v).get j = if j = a.len then some v else a.get j := rfl

lemma initRowsAux_len : ∀ (k : Nat) (a : Mat),
    ((List.range k).foldl (fun m _ => m.pushA JsArr.emptyA) a).len = a.len + k := by
  intro k
  induction k with
  | zero => intro a; rfl
  | succ k ih =>
    intro a
    rw [List.range_succ, List.foldl_append]
    simp only [List.foldl_cons, List.foldl_nil]
    rw [len_pushA, ih a]
    omega

lemma initRowsAux_get (r : Nat) : ∀ (k : Nat) (a : Mat),
    ((List.range k).foldl (fun m _ => m.pushA JsArr.emptyA) a).get r =
      if a.len ≤ r ∧ r < a.len + k then some JsArr.emptyA else a.get r := by
  intro k
  induction k with
  | zero =>
    intro a
    have h : ¬ (a.len ≤ r ∧ r < a.len + 0) := by omega
    rw [if_neg h]
    rfl
  | succ k ih =>
    intro a
    rw [List.range_succ, List.foldl_append]
    simp only [List.foldl_cons, List.foldl_nil]
    rw [get_pushA, initRowsAux_len k a, ih a]
    by_cases h1 : r = a.len + k
    · have hc : a.len ≤ r ∧ r < a.len + (k + 1) := by omega
      rw [if_pos h1, if_pos hc]
    · rw [if_neg h1]
      by_cases h2 : a.len ≤ r ∧ r < a.len + k
      · have hc : a.len ≤ r ∧ r < a.len + (k + 1) := by omega
        rw [if_pos h2, if_pos hc]
      · have hc : ¬ (a.len ≤ r ∧ r < a.len + (k + 1)) := by omega
        rw [if_neg h2, if_neg hc]

lemma len_initRows (n : Nat) : (initRows n).len = n := by
  unfold initRows
  rw [initRowsAux_len]
  have he : (JsArr.emptyA : JsArr (JsArr Nat)).len = 0 := rfl
  omega

lemma get_initRows (n r : Nat) :
    (initRows n).get r = if r < n then some JsArr.emptyA else none := by
  have h := initRowsAux_get r n JsArr.emptyA
  unfold initRows
  rw [h]
  have he : (JsArr.emptyA : JsArr (JsArr Nat)).len = 0 := rfl
  rw [he]
  by_cases hr : r < n
  · rw [if_pos (show 0 ≤ r ∧ r < 0 + n by omega), if_pos hr]
  · rw [if_neg (show ¬ (0 ≤ r ∧ r < 0 + n) by omega), if_neg hr]
    rfl

lemma getCell_initRows (n r c : Nat) : getCell (initRows n) r c = none := by
  unfold getCell
  rw [get_initRows]
  by_cases hr : r < n <;> simp [hr, JsArr.emptyA]

lemma rowLen_initRows (n r : Nat) : rowLen (initRows n) r = 0 := by
  unfold rowLen
  rw [get_initRows]
  by_cases hr : r < n <;> simp [hr, JsArr.emptyA]

lemma len_setCell (m : Mat) (r c v : Nat) : (setCell m r c v).len = max m.len (r + 1) := rfl

lemma rowLen_setCell (m : Mat) (r c v r' : Nat) :
    rowLen (setCell m r c v) r' = if r' = r then max (rowLen m r) (c + 1) else rowLen m r' := by
  unfold rowLen setCell JsArr.setA
  by_cases h : r' = r <;> simp [h]

/-- Well-formedness of a matrix under construction: `n` rows, each row at
most `n` long, defined cells lie inside their row's length, and every
defined cell is a bit. -/
def WfMat (n : Nat) (m : Mat) : Prop :=
  m.len = n ∧ (∀ r, rowLen m r ≤ n) ∧
  (∀ r c, (getCell m r c).isSome → c < rowLen m r) ∧
  (∀ r c v, getCell m r c = some v → v ≤ 1)

lemma wfMat_initRows (n : Nat) : WfMat n (initRows n) := by
  refine ⟨len_initRows n, ?_, ?_, ?_⟩
  · intro r; rw [rowLen_initRows]; omega
  · intro r c h; rw [getCell_initRows] at h; simp at h
  · intro r c v h; rw [getCell_initRows] at h; simp at h

lemma wfMat_setCell {n : Nat} {m : Mat} (h : WfMat n m) {r c v : Nat}
    (hr : r < n) (hc : c < n) (hv : v ≤ 1) : WfMat n (setCell m r c v) := by
  obtain ⟨h1, h2, h3, h4⟩ := h
  refine ⟨?_, ?_, ?_, ?_⟩
  · rw [len_setCell, h1]; omega
  · intro r'
    rw [rowLen_setCell]
    by_cases hrr : r' = r
    · rw [if_pos hrr]
      have := h2 r
      omega
    · rw [if_neg hrr]; exact h2 r'
  · intro r' c' hs
    rw [getCell_setCell] at hs
    rw [rowLen_setCell]
    by_cases hb : r' = r ∧ c' = c
    · rw [if_pos hb.1]
      omega
    · rw [if_neg hb] at hs
      have := h3 r' c' hs
      by_cases hrr : r' = r
      · rw [if_pos hrr]
        rw [hrr] at this
        omega
      · rw [if_neg hrr]; exact this
  · intro r' c' w hw
    rw [getCell_setCell] at hw
    by_cases hb : r' = r ∧ c' = c
    · rw [if_pos hb] at hw
      cases hw; exact hv
    · rw [if_neg hb] at hw
      exact h4 r' c' w hw

/-- Monotonicity: a defined cell stays defined after any write. -/
lemma isSome_setCell {m : Mat} {r c : Nat} (h : (getCell m r c).isSome)
    (r' c' v : Nat) : (getCell (setCell m r' c' v) r c).isSome := by
  rw [getCell_setCell]
  by_cases hb : r = r' ∧ c = c'
  · rw [if_pos hb]; rfl
  · rw [if_neg hb]; exact h

/-- Reserved cells are backed by a defined matrix cell. -/
def ResCon (res m : Mat) : Prop :=
  ∀ r c, truthyCell (getCell res r c) → (getCell m r c).isSome

lemma resCon_initRows (n : Nat) (m : Mat) : ResCon (initRows n) m := by
  intro r c h
  rw [getCell_initRows] at h
  simp [truthyCell] at h

/-- Truthiness of a reserved cell survives further reserved writes (which
are always `1`). -/
lemma truthy_setCell_one {res : Mat} {r c : Nat}
    (h : truthyCell (getCell res r c)) (r' c' : Nat) :
    truthyCell (getCell (setCell res r' c' 1) r c) := by
  rw [getCell_setCell]
  by_cases hb : r = r' ∧ c = c'
  · rw [if_pos hb]; rfl
  · rw [if_neg hb]; exact h

/-- The stamp list is position- and bit-bounded. -/
def StampsOk (n : Nat) (ops : List (Nat × Nat × Nat)) : Prop :=
  ∀ s ∈ ops, s.1 < n ∧ s.2.1 < n ∧ s.2.2 ≤ 1

lemma stampFold_wf {n : Nat} : ∀ (ops : List (Nat × Nat × Nat)) (st : Mat × Mat),
    StampsOk n ops → WfMat n st.1 → WfMat n st.2 → ResCon st.2 st.1 →
    WfMat n (ops.foldl applyStamp st).1 ∧ WfMat n (ops.foldl applyStamp st).2 ∧
      ResCon (ops.foldl applyStamp st).2 (ops.foldl applyStamp st).1 := by
  intro ops
  induction ops with
  | nil => intro st _ h1 h2 h3; exact ⟨h1, h2, h3⟩
  | cons s t ih =>
    intro st hok h1 h2 h3
    simp only [List.foldl_cons]
    obtain ⟨hr, hc, hb⟩ := hok s (List.mem_cons_self s t)
    have hok2 : StampsOk n t := fun x hx => hok x (List.mem_cons_of_mem s hx)
    refine ih (applyStamp st s) hok2 ?_ ?_ ?_
    · exact wfMat_setCell h1 hr hc hb
    · exact wfMat_setCell h2 hr hc (by norm_num)
    · intro r c ht
      unfold applyStamp at ht ⊢
      by_cases hrc : r = s.1 ∧ c = s.2.1
      · show (getCell (setCell st.1 s.1 s.2.1 s.2.2) r c).isSome
        rw [getCell_setCell, if_pos ⟨hrc.1, hrc.2⟩]
        rfl
      · show (getCell (setCell st.1 s.1 s.2.1 s.2.2) r c).isSome
        rw [getCell_setCell, if_neg hrc]
        apply h3
        revert ht
        show truthyCell (getCell (setCell st.2 s.1 s.2.1 1) r c) = true → _
        rw [getCell_setCell, if_neg hrc]
        exact id

/-- A stamped position ends up truthy in the reserved map. -/
lemma stampFold_resTruthy : ∀ (ops : List (Nat × Nat × Nat)) (st : Mat × Mat)
    (r c b : Nat), (r, c, b) ∈ ops →
    truthyCell (getCell (ops.foldl applyStamp st).2 r c) := by
  intro ops
  induction ops with
  | nil => intro st r c b h; cases h
  | cons s t ih =>
    intro st r c b h
    simp only [List.foldl_cons]
    rcases List.mem_cons.mp h with heq | hmem
    · -- s is our stamp: set, then preserved through the rest
      have key : ∀ (ops2 : List (Nat × Nat × Nat)) (st2 : Mat × Mat),
          truthyCell (getCell st2.2 r c) →
          truthyCell (getCell (ops2.foldl applyStamp st2).2 r c) := by
        intro ops2
        induction ops2 with
        | nil => intro st2 h2; exact h2
        | cons s2 t2 ih2 =>
          intro st2 h2
          simp only [List.foldl_cons]
          exact ih2 _ (truthy_setCell_one h2 s2.1 s2.2.1)
      apply key
      show truthyCell (getCell (setCell st.2 s.1 s.2.1 1) r c)
      rw [getCell_setCell]
      rw [← heq]
      rw [if_pos ⟨rfl, rfl⟩]
      rfl
    · exact ih _ r c b hmem

/-!  ## Claim C1, part 2: the base matrix is well-formed with column 6 reserved -/

lemma getD_mem : ∀ (l : List Nat) (i : Nat), i < l.length → l.getD i 0 ∈ l := by
  intro l
  induction l with
  | nil => intro i h; simp at h
  | cons a t ih =>
    intro i h
    cases i with
    | zero => exact List.mem_cons_self a t
    | succ i =>
      have hd : (a :: t).getD (i + 1) 0 = t.getD i 0 := rfl
      rw [hd]
      exact List.mem_cons_of_mem a (ih i (by simpa using h))

lemma and_one_le_one (x : Nat) : x &&& 1 ≤ 1 := Nat.and_le_right

lemma mem_blitOps {y x h w : Nat} {bits : List Nat} {s : Nat × Nat × Nat}
    (hs : s ∈ blitOps y x h w bits) :
    ∃ i j, i < h ∧ j < w ∧ s = (y + i, x + j, (bits.getD i 0 >>> j) &&& 1) := by
  unfold blitOps at hs
  rw [List.mem_flatMap] at hs
  obtain ⟨i, hi, hs⟩ := hs
  rw [List.mem_map] at hs
  obtain ⟨j, hj, rfl⟩ := hs
  exact ⟨i, j, List.mem_range.mp hi, List.mem_range.mp hj, rfl⟩

lemma blitOps_mem_of {y x h w : Nat} (bits : List Nat) {i j : Nat}
    (hi : i < h) (hj : j < w) :
    (y + i, x + j, (bits.getD i 0 >>> j) &&& 1) ∈ blitOps y x h w bits := by
  unfold blitOps
  rw [List.mem_flatMap]
  exact ⟨i, List.mem_range.mpr hi, List.mem_map.mpr ⟨j, List.mem_range.mpr hj, rfl⟩⟩

lemma mem_timingOps {n : Nat} {s : Nat × Nat × Nat} (hs : s ∈ timingOps n) :
    ∃ i, 9 ≤ i ∧ i < 9 + (n - 17) ∧
      (s = (i, 6, (i + 1) % 2) ∨ s = (6, i, (i + 1) % 2)) := by
  unfold timingOps at hs
  rw [List.mem_flatMap] at hs
  obtain ⟨i, hi, hs⟩ := hs
  rw [List.mem_range'_1] at hi
  simp only [List.mem_cons, List.not_mem_nil, or_false] at hs
  rcases hs with h | h
  · exact ⟨i, hi.1, hi.2, Or.inl h⟩
  · exact ⟨i, hi.1, hi.2, Or.inr h⟩

lemma timingOps_mem_of {n i : Nat} (h1 : 9 ≤ i) (h2 : i < 9 + (n - 17)) :
    (i, 6, (i + 1) % 2) ∈ timingOps n := by
  unfold timingOps
  rw [List.mem_flatMap]
  refine ⟨i, List.mem_range'_1.mpr ⟨h1, h2⟩, ?_⟩
  exact List.mem_cons_self _ _

lemma mem_alignOps {aligns : List Nat} {s : Nat × Nat × Nat} (hs : s ∈ alignOps aligns) :
    ∃ a b, a ∈ aligns ∧ b ∈ aligns ∧
      s ∈ blitOps a b 5 5 [0x1f, 0x11, 0x15, 0x11, 0x1f] := by
  unfold alignOps at hs
  rw [List.mem_flatMap] at hs
  obtain ⟨i, hi, hs⟩ := hs
  rw [List.mem_flatMap] at hs
  obtain ⟨j, hj, hs⟩ := hs
  have hi2 := List.mem_range.mp hi
  rw [List.mem_range'_1] at hj
  refine ⟨aligns.getD i 0, aligns.getD j 0, getD_mem _ _ hi2, ?_, hs⟩
  apply getD_mem
  split_ifs at hj <;> omega

lemma mem_versionOps {ver n : Nat} {s : Nat × Nat × Nat} (hs : s ∈ versionOps ver n) :
    6 < ver ∧ ∃ i j b, i < 6 ∧ j < 3 ∧ b ≤ 1 ∧
      (s = (n - 11 + j, i, b) ∨ s = (i, n - 11 + j, b)) := by
  unfold versionOps at hs
  by_cases hv : needsVerInfo ver
  · rw [if_pos hv] at hs
    rw [List.mem_flatMap] at hs
    obtain ⟨i, hi, hs⟩ := hs
    rw [List.mem_flatMap] at hs
    obtain ⟨j, hj, hs⟩ := hs
    have hver : 6 < ver := by simpa [needsVerInfo] using hv
    simp only [List.mem_cons, List.not_mem_nil, or_false] at hs
    refine ⟨hver, i, j, (augumentbch ver 6 0x1f25 12 >>> (i * 3 + j)) &&& 1,
      List.mem_range.mp hi, List.mem_range.mp hj, and_one_le_one _, ?_⟩
    exact hs
  · rw [if_neg hv] at hs
    cases hs


/-- Finite table check: every alignment position fits 5 cells inside the
symbol. -/
def alignCheck : Bool :=
  (List.range 40).all fun k => (alignsOf (k + 1)).all fun a =>
    decide (a + 4 < 4 * (k + 1) + 17)

lemma alignCheck_true : alignCheck = true := by decide

lemma alignFacts {ver : Nat} (h1 : 1 ≤ ver) (h2 : ver ≤ 40) :
    ∀ a ∈ alignsOf ver, a + 4 < 4 * ver + 17 := by
  intro a ha
  have hv : ver - 1 ∈ List.range 40 := List.mem_range.mpr (by omega)
  have h3 := List.all_eq_true.mp alignCheck_true _ hv
  have hveq : ver - 1 + 1 = ver := by omega
  rw [hveq] at h3
  exact of_decide_eq_true (List.all_eq_true.mp h3 a ha)

lemma baseOps_ok {ver : Nat} (h1 : 1 ≤ ver) (h2 : ver ≤ 40) :
    StampsOk (getSizeByVer ver) (baseOps ver) := by
  intro s hs
  have hn : getSizeByVer ver = 4 * ver + 17 := rfl
  have hn21 : 21 ≤ getSizeByVer ver := by rw [hn]; omega
  unfold baseOps at hs
  simp only [List.mem_append] at hs
  rcases hs with ((((hb1 | hb2) | hb3) | ht) | ha) | hv
  · obtain ⟨i, j, hi, hj, rfl⟩ := mem_blitOps hb1
    exact ⟨by dsimp only; omega, by dsimp only; omega, and_one_le_one _⟩
  · obtain ⟨i, j, hi, hj, rfl⟩ := mem_blitOps hb2
    exact ⟨by dsimp only; omega, by dsimp only; omega, and_one_le_one _⟩
  · obtain ⟨i, j, hi, hj, rfl⟩ := mem_blitOps hb3
    exact ⟨by dsimp only; omega, by dsimp only; omega, and_one_le_one _⟩
  · obtain ⟨i, hi1, hi2, hcase⟩ := mem_timingOps ht
    rcases hcase with rfl | rfl
    · exact ⟨by dsimp only; omega, by dsimp only; omega, by dsimp only; omega⟩
    · exact ⟨by dsimp only; omega, by dsimp only; omega, by dsimp only; omega⟩
  · obtain ⟨a, b, hamem, hbmem, hblit⟩ := mem_alignOps ha
    obtain ⟨i, j, hi, hj, rfl⟩ := mem_blitOps hblit
    have hab := alignFacts h1 h2 a hamem
    have hbb := alignFacts h1 h2 b hbmem
    exact ⟨by dsimp only; omega, by dsimp only; omega, and_one_le_one _⟩
  · obtain ⟨hver, i, j, b, hi, hj, hb, hcase⟩ := mem_versionOps hv
    have hn45 : 45 ≤ getSizeByVer ver := by rw [hn]; omega
    rcases hcase with rfl | rfl
    · exact ⟨by dsimp only; omega, by dsimp only; omega, hb⟩
    · exact ⟨by dsimp only; omega, by dsimp only; omega, hb⟩

lemma baseOps_col6 {ver : Nat} (h1 : 1 ≤ ver) :
    ∀ r, r < getSizeByVer ver → ∃ b, (r, 6, b) ∈ baseOps ver := by
  intro r hr
  have hn : getSizeByVer ver = 4 * ver + 17 := rfl
  have hn21 : 21 ≤ getSizeByVer ver := by rw [hn]; omega
  set n := getSizeByVer ver with hnset
  unfold baseOps
  simp only [List.mem_append]
  by_cases hc1 : r ≤ 8
  · -- top-left 9x9 blit covers (r, 6)
    have hm := blitOps_mem_of (y := 0) (x := 0) (h := 9) (w := 9)
      [0x7f, 0x41, 0x5d, 0x5d, 0x5d, 0x41, 0x17f, 0x00, 0x40]
      (i := r) (j := 6) (by omega) (by omega)
    rw [Nat.zero_add, Nat.zero_add] at hm
    exact ⟨_, Or.inl (Or.inl (Or.inl (Or.inl (Or.inl hm))))⟩
  · by_cases hc2 : r < n - 8
    · -- timing pattern column
      have hm := timingOps_mem_of (n := n) (i := r) (by omega) (by omega)
      exact ⟨_, Or.inl (Or.inl (Or.inr hm))⟩
    · -- bottom-left 8x9 blit
      have hm := blitOps_mem_of (y := n - 8) (x := 0) (h := 8) (w := 9)
        [0x100, 0x7f, 0x41, 0x5d, 0x5d, 0x5d, 0x41, 0x7f]
        (i := r - (n - 8)) (j := 6) (by omega) (by omega)
      rw [Nat.zero_add] at hm
      have he : n - 8 + (r - (n - 8)) = r := by omega
      rw [he] at hm
      exact ⟨_, Or.inl (Or.inl (Or.inl (Or.inl (Or.inr hm))))⟩

/-- Summary of `makeBaseMatrix`: both matrices are well-formed, every
reserved cell is backed by a written bit, and column 6 is fully
reserved. -/
lemma makeBaseMatrix_spec {ver : Nat} (h1 : 1 ≤ ver) (h2 : ver ≤ 40) :
    WfMat (getSizeByVer ver) (makeBaseMatrix ver).1 ∧
    WfMat (getSizeByVer ver) (makeBaseMatrix ver).2 ∧
    ResCon (makeBaseMatrix ver).2 (makeBaseMatrix ver).1 ∧
    (∀ r, r < getSizeByVer ver → truthyCell (getCell (makeBaseMatrix ver).2 r 6)) := by
  have hfold := stampFold_wf (n := getSizeByVer ver) (baseOps ver)
    (initRows (getSizeByVer ver), initRows (getSizeByVer ver))
    (baseOps_ok h1 h2) (wfMat_initRows _) (wfMat_initRows _) (resCon_initRows _ _)
  have hmb : makeBaseMatrix ver =
      (baseOps ver).foldl applyStamp
        (initRows (getSizeByVer ver), initRows (getSizeByVer ver)) := rfl
  rw [hmb]
  refine ⟨hfold.1, hfold.2.1, hfold.2.2, ?_⟩
  intro r hr
  obtain ⟨b, hb⟩ := baseOps_col6 h1 r hr
  exact stampFold_resTruthy (baseOps ver) _ r 6 b hb

/-!  ## Claim C1, part 3: the zig-zag data placement defines every cell -/

lemma zzAux_eq : ∀ (f1 f2 i : Nat), i < f1 → i < f2 →
    zigzagColsAux f1 i = zigzagColsAux f2 i := by
  intro f1
  induction f1 with
  | zero => intro f2 i h1; omega
  | succ f1 ih =>
    intro f2 i h1 h2
    cases f2 with
    | zero => omega
    | succ f2 =>
      show zigzagColsAux (f1 + 1) i = zigzagColsAux (f2 + 1) i
      unfold zigzagColsAux
      dsimp only
      by_cases h6 : i = 6
      · rw [if_pos h6]
        norm_num
        exact ih f2 3 (by omega) (by omega)
      · rw [if_neg h6]
        by_cases hlt : i < 2
        · rw [if_pos hlt, if_pos hlt]
        · rw [if_neg hlt, if_neg hlt]
          rw [ih f2 (i - 2) (by omega) (by omega)]

lemma zigzagCols_step (i : Nat) (h2 : 2 ≤ i) (h6 : i ≠ 6) :
    zigzagCols i = i :: zigzagCols (i - 2) := by
  unfold zigzagCols
  show zigzagColsAux (i + 1) i = _
  unfold zigzagColsAux
  dsimp only
  rw [if_neg h6, if_neg (by omega : ¬ i < 2)]
  rw [zzAux_eq i (i - 2 + 1) (i - 2) (by omega) (by omega)]
  rfl

lemma zigzagCols_cover : ∀ i, i % 2 = 0 → 8 ≤ i → ∀ c, c ≤ i → (7 ≤ c ∨ c ≤ 5) →
    ∃ x ∈ zigzagCols i, c = x ∨ c + 1 = x := by
  intro i
  induction i using Nat.strong_induction_on with
  | _ i ih =>
    intro heven h8 c hc hside
    by_cases hbase : i = 8
    · subst hbase
      have hlist : zigzagCols 8 = [8, 5, 3, 1] := by decide
      rw [hlist]
      interval_cases c <;> simp_all
    · have h10 : 10 ≤ i := by omega
      rw [zigzagCols_step i (by omega) (by omega)]
      by_cases htop : c + 1 ≥ i
      · refine ⟨i, List.mem_cons_self _ _, by omega⟩
      · obtain ⟨x, hx, hcase⟩ := ih (i - 2) (by omega) (by omega) (by omega) c (by omega) hside
        exact ⟨x, List.mem_cons_of_mem _ hx, hcase⟩

lemma zigzagColsAux_le : ∀ (fuel i x : Nat), x ∈ zigzagColsAux fuel i → x ≤ i := by
  intro fuel
  induction fuel with
  | zero => intro i x h; cases h
  | succ fuel ih =>
    intro i x h
    unfold zigzagColsAux at h
    dsimp only at h
    by_cases h6 : i = 6
    · rw [if_pos h6] at h
      norm_num at h
      rcases h with rfl | h
      · omega
      · have := ih 3 x h
        omega
    · rw [if_neg h6] at h
      by_cases hlt : i < 2
      · rw [if_pos hlt] at h
        simp at h
        omega
      · rw [if_neg hlt] at h
        rcases List.mem_cons.mp h with rfl | h
        · omega
        · have := ih (i - 2) x h
          omega

lemma zigzagCols_le {i x : Nat} (h : x ∈ zigzagCols i) : x ≤ i :=
  zigzagColsAux_le (i + 1) i x h

lemma mem_zigzagPositions {n : Nat} : ∀ (cols : List Nat) (dir : Bool) (x : Nat),
    x ∈ cols → ∀ r, r < n →
    (r, x) ∈ zigzagPositions n cols dir ∧ (r, x - 1) ∈ zigzagPositions n cols dir := by
  intro cols
  induction cols with
  | nil => intro dir x h; cases h
  | cons x0 rest ih =>
    intro dir x hx r hr
    rcases List.mem_cons.mp hx with rfl | hmem
    · constructor <;>
      · unfold zigzagPositions
        rw [List.mem_append, List.mem_flatMap]
        refine Or.inl ⟨if dir then n - 1 - r else r, List.mem_range.mpr (by split <;> omega), ?_⟩
        have hjj : (if dir then n - 1 - (if dir then n - 1 - r else r) else
            (if dir then n - 1 - r else r)) = r := by
          by_cases hd : dir <;> simp [hd] <;> omega
        rw [hjj]
        simp
    · refine ⟨?_, ?_⟩
      · unfold zigzagPositions
        rw [List.mem_append]
        exact Or.inr ((ih (!dir) x hmem r hr).1)
      · unfold zigzagPositions
        rw [List.mem_append]
        exact Or.inr ((ih (!dir) x hmem r hr).2)


lemma putDataFold_resCon {res : Mat} {buf : List JsVal} :
    ∀ (ps : List (Nat × Nat)) (st : Mat × Nat),
    ResCon res st.1 → ResCon res (ps.foldl (putDataStep res buf) st).1 := by
  intro ps
  induction ps with
  | nil => intro st h; exact h
  | cons p t ih =>
    intro st h
    simp only [List.foldl_cons]
    apply ih
    unfold putDataStep
    split
    · exact h
    · intro r c ht
      exact isSome_setCell (h r c ht) _ _ _

lemma putDataFold_mono {res : Mat} {buf : List JsVal} {r c : Nat} :
    ∀ (ps : List (Nat × Nat)) (st : Mat × Nat),
    (getCell st.1 r c).isSome → (getCell (ps.foldl (putDataStep res buf) st).1 r c).isSome := by
  intro ps
  induction ps with
  | nil => intro st h; exact h
  | cons p t ih =>
    intro st h
    simp only [List.foldl_cons]
    apply ih
    unfold putDataStep
    split
    · exact h
    · exact isSome_setCell h _ _ _

lemma putDataFold_wf {n : Nat} {res : Mat} {buf : List JsVal} :
    ∀ (ps : List (Nat × Nat)) (st : Mat × Nat),
    (∀ p ∈ ps, p.1 < n ∧ p.2 < n) → WfMat n st.1 →
    WfMat n (ps.foldl (putDataStep res buf) st).1 := by
  intro ps
  induction ps with
  | nil => intro st _ h; exact h
  | cons p t ih =>
    intro st hps h
    simp only [List.foldl_cons]
    obtain ⟨hr, hc⟩ := hps p (List.mem_cons_self p t)
    refine ih _ (fun q hq => hps q (List.mem_cons_of_mem p hq)) ?_
    unfold putDataStep
    split
    · exact h
    · exact wfMat_setCell h hr hc (and_one_le_one _)

lemma putDataFold_some {res : Mat} {buf : List JsVal} {r c : Nat} :
    ∀ (ps : List (Nat × Nat)) (st : Mat × Nat),
    ResCon res st.1 → (r, c) ∈ ps →
    (getCell (ps.foldl (putDataStep res buf) st).1 r c).isSome := by
  intro ps
  induction ps with
  | nil => intro st _ h; cases h
  | cons p t ih =>
    intro st hres hmem
    simp only [List.foldl_cons]
    rcases List.mem_cons.mp hmem with heq | hmem2
    · apply putDataFold_mono
      rw [← heq]
      unfold putDataStep
      split
      · rename_i htr
        exact hres r c htr
      · show (getCell (setCell st.1 r c _) r c).isSome
        rw [getCell_setCell, if_pos ⟨rfl, rfl⟩]
        rfl
    · apply ih
      · unfold putDataStep
        split
        · exact hres
        · intro r' c' ht
          exact isSome_setCell (hres r' c' ht) _ _ _
      · exact hmem2

lemma zigzagPositions_bounds {n : Nat} : ∀ (cols : List Nat) (dir : Bool),
    (∀ x ∈ cols, x < n) → ∀ p ∈ zigzagPositions n cols dir, p.1 < n ∧ p.2 < n := by
  intro cols
  induction cols with
  | nil => intro dir _ p hp; cases hp
  | cons x rest ih =>
    intro dir hx p hp
    unfold zigzagPositions at hp
    rw [List.mem_append] at hp
    rcases hp with hp | hp
    · rw [List.mem_flatMap] at hp
      obtain ⟨j, hj, hp⟩ := hp
      have hjn := List.mem_range.mp hj
      have hxn := hx x (List.mem_cons_self _ _)
      simp only [List.mem_cons, List.not_mem_nil, or_false] at hp
      rcases hp with rfl | rfl
      · constructor <;> dsimp only <;> (first | (split <;> omega) | omega)
      · constructor <;> dsimp only <;> (first | (split <;> omega) | omega)
    · exact ih (!dir) (fun y hy => hx y (List.mem_cons_of_mem x hy)) p hp

/-- After `putData` every in-range cell of the matrix is a defined bit,
provided column 6 is fully reserved and every reserved cell is already
written. -/
lemma putData_full {n : Nat} {mat res : Mat} {buf : List JsVal}
    (hwm : WfMat n mat) (hres : ResCon res mat)
    (hcol6 : ∀ r, r < n → truthyCell (getCell res r 6))
    (hn : 21 ≤ n) (heven : (n - 1) % 2 = 0) :
    WfMat n (putData mat res buf) ∧
    (∀ r c, r < n → c < n → (getCell (putData mat res buf) r c).isSome) := by
  have hlen : mat.len = n := hwm.1
  have hcolslt : ∀ x ∈ zigzagCols (n - 1), x < n := by
    intro x hx
    have := zigzagCols_le hx
    omega
  have hputd : putData mat res buf =
      ((zigzagPositions n (zigzagCols (n - 1)) true).foldl
        (putDataStep res buf) (mat, 0)).1 := by
    unfold putData
    rw [hlen]
  rw [hputd]
  constructor
  · exact putDataFold_wf _ _ (zigzagPositions_bounds _ _ hcolslt) hwm
  · intro r c hr hc
    by_cases hc6 : c = 6
    · subst hc6
      apply putDataFold_mono
      exact hres r 6 (hcol6 r hr)
    · have hcover := zigzagCols_cover (n - 1) heven (by omega) c (by omega) (by omega)
      obtain ⟨x, hx, hcase⟩ := hcover
      have hmem := mem_zigzagPositions (n := n) _ true x hx r hr
      rcases hcase with rfl | hcp1
      · exact putDataFold_some _ _ hres hmem.1
      · have : c = x - 1 := by omega
        subst this
        exact putDataFold_some _ _ hres hmem.2

/-!  ## Claim C1, part 4: the full pipeline yields a complete bit matrix -/

/-- The final matrix property of claim C1: `n` rows, each of length `n`,
every cell a defined 0/1 bit. -/
def FullBits (n : Nat) (m : Mat) : Prop :=
  m.len = n ∧ (∀ r, r < n → rowLen m r = n) ∧
  (∀ r c, r < n → c < n → getCell m r c = some 0 ∨ getCell m r c = some 1)

lemma fullBits_of_wf {n : Nat} {m : Mat} (hw : WfMat n m)
    (hcov : ∀ r c, r < n → c < n → (getCell m r c).isSome) (hn : 1 ≤ n) :
    FullBits n m := by
  obtain ⟨h1, h2, h3, h4⟩ := hw
  refine ⟨h1, ?_, ?_⟩
  · intro r hr
    have hs := hcov r (n - 1) hr (by omega)
    have := h3 r (n - 1) hs
    have := h2 r
    omega
  · intro r c hr hc
    have hs := hcov r c hr hc
    rw [Option.isSome_iff_exists] at hs
    obtain ⟨v, hv⟩ := hs
    have := h4 r c v hv
    interval_cases v
    · exact Or.inl hv
    · exact Or.inr hv

lemma xor_bit_le (b x : Nat) (hb : b ≤ 1) (hx : x ≤ 1) : b ^^^ x ≤ 1 := by
  interval_cases b <;> interval_cases x <;> decide

lemma fullBits_setCell {n : Nat} {m : Mat} (h : FullBits n m) {r c v : Nat}
    (hr : r < n) (hc : c < n) (hv : v ≤ 1) : FullBits n (setCell m r c v) := by
  obtain ⟨h1, h2, h3⟩ := h
  refine ⟨?_, ?_, ?_⟩
  · rw [len_setCell, h1]; omega
  · intro r' hr'
    rw [rowLen_setCell]
    by_cases hrr : r' = r
    · rw [if_pos hrr]
      have := h2 r hr
      omega
    · rw [if_neg hrr]; exact h2 r' hr'
  · intro r' c' hr' hc'
    rw [getCell_setCell]
    by_cases hb : r' = r ∧ c' = c
    · rw [if_pos hb]
      interval_cases v
      · exact Or.inl rfl
      · exact Or.inr rfl
    · rw [if_neg hb]; exact h3 r' c' hr' hc'

lemma fullBits_maskStep {n : Nat} {m res : Mat} {mask i j : Nat}
    (h : FullBits n m) (hi : i < n) (hj : j < n) :
    FullBits n (maskStep res mask m (i, j)) := by
  unfold maskStep
  split
  · exact h
  · apply fullBits_setCell h hi hj
    apply xor_bit_le
    · rcases h.2.2 i j hi hj with hb | hb <;> rw [hb] <;> norm_num
    · split <;> norm_num

lemma fullBits_maskRowList {n : Nat} {res : Mat} {mask i : Nat} :
    ∀ (js : List Nat) (m : Mat), (∀ x ∈ js, x < n) → i < n → FullBits n m →
    FullBits n (js.foldl (fun m2 j => maskStep res mask m2 (i, j)) m) := by
  intro js
  induction js with
  | nil => intro m _ _ h; exact h
  | cons j t ih =>
    intro m hjs hi h
    simp only [List.foldl_cons]
    exact ih _ (fun x hx => hjs x (List.mem_cons_of_mem j hx)) hi
      (fullBits_maskStep h hi (hjs j (List.mem_cons_self j t)))

lemma fullBits_maskRow {n : Nat} {res : Mat} {mask i : Nat} {m : Mat}
    (hi : i < n) (h : FullBits n m) : FullBits n (maskRow res mask n i m) :=
  fullBits_maskRowList (List.range n) m (fun x hx => List.mem_range.mp hx) hi h

lemma fullBits_maskData {n : Nat} {m res : Mat} {mask : Nat}
    (h : FullBits n m) : FullBits n (maskData m res mask) := by
  have key : ∀ (is : List Nat) (m2 : Mat), (∀ x ∈ is, x < n) → FullBits n m2 →
      FullBits n (is.foldl (fun m3 i => maskRow res mask n i m3) m2) := by
    intro is
    induction is with
    | nil => intro m2 _ h2; exact h2
    | cons i t ih =>
      intro m2 his h2
      simp only [List.foldl_cons]
      exact ih _ (fun x hx => his x (List.mem_cons_of_mem i hx))
        (fullBits_maskRow (his i (List.mem_cons_self i t)) h2)
  unfold maskData
  rw [h.1]
  exact key (List.range n) m (fun x hx => List.mem_range.mp hx) h

lemma fmtPos_lt {n : Nat} (hn : 21 ≤ n) (i : Nat) (hi : i < 15) :
    [0, 1, 2, 3, 4, 5, 7, 8, n-7, n-6, n-5, n-4, n-3, n-2, n-1].getD i 0 < n ∧
    [n-1, n-2, n-3, n-4, n-5, n-6, n-7, n-8, 7, 5, 4, 3, 2, 1, 0].getD i 0 < n := by
  interval_cases i <;> constructor <;> simp [List.getD] <;> omega

lemma fmtPos_lt_all {n : Nat} (hn : 21 ≤ n) (i : Nat) :
    [0, 1, 2, 3, 4, 5, 7, 8, n-7, n-6, n-5, n-4, n-3, n-2, n-1].getD i 0 < n ∧
    [n-1, n-2, n-3, n-4, n-5, n-6, n-7, n-8, 7, 5, 4, 3, 2, 1, 0].getD i 0 < n := by
  by_cases hi : i < 15
  · exact fmtPos_lt hn i hi
  · have e1 : [0, 1, 2, 3, 4, 5, 7, 8, n-7, n-6, n-5, n-4, n-3, n-2, n-1].getD i 0 = 0 :=
      List.getD_eq_default _ _ (by simp; omega)
    have e2 : [n-1, n-2, n-3, n-4, n-5, n-6, n-7, n-8, 7, 5, 4, 3, 2, 1, 0].getD i 0 = 0 :=
      List.getD_eq_default _ _ (by simp; omega)
    rw [e1, e2]
    exact ⟨by omega, by omega⟩

/-- Generic preservation of `FullBits` along a left fold whose step
preserves it. -/
lemma fullBits_foldl {α : Type} {n : Nat} {f : Mat → α → Mat}
    (hf : ∀ (m : Mat) (x : α), FullBits n m → FullBits n (f m x)) :
    ∀ (l : List α) (m : Mat), FullBits n m → FullBits n (l.foldl f m) := by
  intro l
  induction l with
  | nil => intro m h; exact h
  | cons x t ih =>
    intro m h
    simp only [List.foldl_cons]
    exact ih _ (hf m x h)

/-- The same for folds whose state carries the matrix in the first
component. -/
lemma fullBits_foldl_fst {α β : Type} {n : Nat} {f : Mat × β → α → Mat × β}
    (hf : ∀ (st : Mat × β) (x : α), FullBits n st.1 → FullBits n (f st x).1) :
    ∀ (l : List α) (st : Mat × β), FullBits n st.1 → FullBits n (l.foldl f st).1 := by
  intro l
  induction l with
  | nil => intro st h; exact h
  | cons x t ih =>
    intro st h
    simp only [List.foldl_cons]
    exact ih _ (hf st x h)

lemma fullBits_putFormatInfo {n : Nat} {m : Mat} {e mask : Nat}
    (h : FullBits n m) (hn : 21 ≤ n) : FullBits n (putFormatInfo m e mask) := by
  unfold putFormatInfo
  rw [h.1]
  apply fullBits_foldl _ _ _ h
  intro m2 i h2
  dsimp only
  have hpos := fmtPos_lt_all (n := n) hn i
  exact fullBits_setCell
    (fullBits_setCell h2 (by omega) hpos.2 (and_one_le_one _))
    hpos.1 (by omega) (and_one_le_one _)

lemma fullBits_findBestMask {n : Nat} {mat res : Mat} {e : Nat}
    (h : FullBits n mat) (hn : 21 ≤ n) :
    FullBits n (findBestMask mat res e).1 := by
  unfold findBestMask
  dsimp only
  apply fullBits_foldl_fst
  · intro st x h2
    dsimp only
    exact fullBits_maskData (fullBits_putFormatInfo (fullBits_maskData h2) hn)
  · dsimp only
    exact fullBits_maskData (fullBits_putFormatInfo (fullBits_maskData h) hn)

set_option maxHeartbeats 1600000 in
/-- C1.  For every valid configuration (version in `1..40`, a valid ECC
level index, a supported mode, mask auto or `0..7`) and every payload,
`generate` returns a square matrix with exactly `4*ver+17` rows, each row
of length `4*ver+17`, every cell written as `0` or `1` - no cell is left
undefined after data placement, masking, and format-information
embedding (`FullBits`). -/
theorem c1_generate_bit_matrix (data : List Char) (ver ecclevel mode : Nat) (mask : Int)
    (h1 : 1 ≤ ver) (h2 : ver ≤ 40) (_he : ecclevel ≤ 3)
    (_hm : mode = 1 ∨ mode = 2 ∨ mode = 4)
    (_hmask : mask = -1 ∨ (0 ≤ mask ∧ mask ≤ 7)) :
    FullBits (4 * ver + 17) (generate data ver ecclevel mode mask) := by
  have hn21 : 21 ≤ getSizeByVer ver := by
    unfold getSizeByVer; omega
  have heven : (getSizeByVer ver - 1) % 2 = 0 := by
    unfold getSizeByVer; omega
  have hsz : getSizeByVer ver = 4 * ver + 17 := rfl
  rw [← hsz]
  obtain ⟨hwm, hwres, hres, hcol6⟩ := makeBaseMatrix_spec h1 h2
  unfold generate
  dsimp only
  generalize augumentEccs (encode ver mode data (nDataBits ver ecclevel / 8))
    (nBlocks ver ecclevel) (GENPOLY.getD (eccPerBlock ver ecclevel) []) = B
  have hput := @putData_full (getSizeByVer ver) (makeBaseMatrix ver).1
    (makeBaseMatrix ver).2 B hwm hres hcol6 hn21 heven
  have hfull0 : FullBits (getSizeByVer ver)
      (putData (makeBaseMatrix ver).1 (makeBaseMatrix ver).2 B) :=
    fullBits_of_wf hput.1 hput.2 (by omega)
  by_cases hneg : mask < 0
  · rw [if_pos hneg]
    exact fullBits_putFormatInfo
      (fullBits_maskData (fullBits_findBestMask hfull0 hn21)) hn21
  · rw [if_neg hneg]
    dsimp only
    exact fullBits_putFormatInfo (fullBits_maskData hfull0) hn21

/-- Witness for `c1_generate_bit_matrix` at version 1, level L, NUMERIC,
mask 0, payload "0". -/
theorem c1_witness :
    ((1 : Nat) ≤ 1 ∧ (1 : Nat) ≤ 40 ∧ (1 : Nat) ≤ 3 ∧
      ((1 : Nat) = 1 ∨ (1 : Nat) = 2 ∨ (1 : Nat) = 4) ∧
      ((0 : Int) = -1 ∨ ((0 : Int) ≤ 0 ∧ (0 : Int) ≤ 7))) ∧
    (generate "0".data 1 1 1 0).len = 4 * 1 + 17 :=
  ⟨by decide,
    (c1_generate_bit_matrix "0".data 1 1 1 0 (by decide) (by decide) (by decide)
      (by decide) (by decide)).1⟩

end QrCode
